import Mathlib

/-!
Verification of the encryption manager of gocommands (`commons/encrypt.go`)

Shallow embedding of the Go code.

* A Go `[]byte` and a Go `string` are both a sequence of bytes: `Bytes`.
  The conversions `[]byte(s)` and `string(b)` are the identity.
* A Go function returning `(T, error)` returns an `Outcome T`: either the
  pair it returned, or a run-time panic.
* The libraries the code calls but does not contain (base62, AES-CBC) are the
  fields of `Primitives`; what is assumed about them is `Primitives.Lawful`.
-/

namespace Gocommands

/-- One byte. `byteOf` is the conversion `byte(n)` of Go (reduction mod 256). -/
abbrev Byte := Fin 256

/-- Byte sequence: Go `[]byte` and Go `string`. -/
abbrev Bytes := List Byte

/-- Go conversion `byte(n)`. -/
def byteOf (n : Nat) : Byte := ⟨n % 256, Nat.mod_lt n (by decide)⟩

/-- Bytes of an ASCII literal of the source. -/
def ascii (s : String) : Bytes := s.toList.map (fun c => byteOf c.toNat)

/-- Error values built by the code. `wrap m e` is `xerrors.Errorf(m + ": %w", e)`,
`wrapf m a e` is `xerrors.Errorf(m + " %s: %w", a, e)`,
`msg m` is `xerrors.Errorf(m)` or `xerrors.New(m)`, `keySize n` is the
`aes.KeySizeError(n)` of `aes.NewCipher`, `lib m` is an error produced inside a library. -/
inductive GoError where
  | msg (m : String)
  | wrap (m : String) (cause : GoError)
  | wrapf (m : String) (arg : Bytes) (cause : GoError)
  | keySize (n : Nat)
  | lib (m : String)
deriving DecidableEq, Repr

/-- Result of a call of a Go function with results `(T, error)`. -/
inductive Outcome (α : Type) where
  | returned (value : α) (err : Option GoError)
  | panicked (reason : String)
deriving DecidableEq, Repr

/-- Libraries used by the filename codec and not part of the repository. -/
structure Primitives where
  /-- Function `base62.EncodeToString` of github.com/jxskiss/base62. -/
  base62Encode : Bytes → Bytes
  /-- Function `base62.DecodeString`; `none` is a decoding error. -/
  base62Decode : Bytes → Option Bytes
  /-- CBC encryption of whole blocks: key, IV, source. -/
  cbcEncrypt : Bytes → Bytes → Bytes → Bytes
  /-- CBC decryption of whole blocks: key, IV, source. -/
  cbcDecrypt : Bytes → Bytes → Bytes → Bytes

/-- What is assumed of the libraries: base62 decoding inverts encoding, CBC
keeps the length of its input, and CBC decryption inverts CBC encryption
under the same key and IV on whole blocks. -/
structure Primitives.Lawful (P : Primitives) : Prop where
  decode_encode : ∀ b : Bytes, P.base62Decode (P.base62Encode b) = some b
  length_encrypt : ∀ k iv d : Bytes, (P.cbcEncrypt k iv d).length = d.length
  length_decrypt : ∀ k iv d : Bytes, (P.cbcDecrypt k iv d).length = d.length
  decrypt_encrypt : ∀ k iv d : Bytes, d.length % 16 = 0 →
    P.cbcDecrypt k iv (P.cbcEncrypt k iv d) = d

/-! ## Constants -/

def PgpEncryptedFileExtension : Bytes := ascii ".pgp.enc"
def WinSCPEncryptedFileExtension : Bytes := ascii ".aesctr.enc"
def aesSaltLen : Nat := 16

/-- The type `EncryptionMode` is a Go string type. -/
abbrev EncryptionMode := Bytes

def EncryptionModeWinSCP : EncryptionMode := ascii "WINSCP"
def EncryptionModePGP : EncryptionMode := ascii "PGP"
def EncryptionModeUnknown : EncryptionMode := ascii ""

structure EncryptionManager where
  mode : EncryptionMode
  encryptFilename : Bool
  password : Bytes
deriving DecidableEq, Repr

def NewEncryptionManager (mode : EncryptionMode) (encryptFilename : Bool)
    (password : Bytes) : EncryptionManager :=
  { mode := mode, encryptFilename := encryptFilename, password := password }

/-! ## Library behaviour that is fixed by the Go documentation -/

/-- AES block size, `block.BlockSize()`. -/
def aesBlockSize : Nat := 16

/-- Function `aes.NewCipher`: the key must have 16, 24 or 32 bytes. -/
def aesNewCipher (key : Bytes) : Except GoError Bytes :=
  if key.length = 16 ∨ key.length = 24 ∨ key.length = 32 then .ok key
  else .error (.keySize key.length)

/-- Function `binary.LittleEndian.PutUint32` on a fresh 4-byte prefix. -/
def putUint32LE (v : Nat) : Bytes :=
  [byteOf v, byteOf (v / 256), byteOf (v / 65536), byteOf (v / 16777216)]

/-- Function `binary.LittleEndian.Uint32` on 4 bytes. -/
def uint32LE (b : Bytes) : Nat :=
  match b with
  | [b0, b1, b2, b3] => b0.val + 256 * b1.val + 65536 * b2.val + 16777216 * b3.val
  | _ => 0

/-- Function `strings.TrimSuffix`. -/
def trimSuffix (s suffix : Bytes) : Bytes :=
  if suffix.isSuffixOf s then s.take (s.length - suffix.length) else s

/-! ## The filename codec -/

/-- Method `padPkcs7`. The block size is 16 at both call sites; it is a
positive `int` in Go (a zero block size divides by zero there). -/
def padPkcs7 (data : Bytes) (blocksize : Nat) : Bytes :=
  let n := blocksize - (data.length % blocksize)
  data ++ List.replicate n (byteOf n)

/-- Method `CryptBlocks` of a CBC block mode with a destination as long as
the source: it panics unless the source is a whole number of blocks. -/
def cryptBlocks (crypt : Bytes → Bytes) (src : Bytes) : Except String Bytes :=
  if src.length % aesBlockSize ≠ 0 then .error "crypto/cipher: input not full blocks"
  else .ok (crypt src)

/-- Method `encryptAESCBC`. -/
def encryptAESCBC (P : Primitives) (manager : EncryptionManager) (data salt : Bytes) :
    Outcome Bytes :=
  let key := padPkcs7 manager.password 16
  match aesNewCipher key with
  | .error err => .returned [] (some (.wrap "failed to create AES cipher" err))
  | .ok block =>
    -- cipher.NewCBCEncrypter(block, salt)
    if salt.length ≠ aesBlockSize then
      .panicked "cipher.NewCBCEncrypter: IV length must equal block size"
    else
      let contentLength := data.length % 2 ^ 32
      let padData := padPkcs7 data aesBlockSize
      -- dest[:4] is the size header, dest[4:] receives the cipher blocks
      match cryptBlocks (P.cbcEncrypt block salt) padData with
      | .error r => .panicked r
      | .ok blocks => .returned (putUint32LE contentLength ++ blocks) none

/-- Method `decryptAESCBC`. -/
def decryptAESCBC (P : Primitives) (manager : EncryptionManager) (data salt : Bytes) :
    Outcome Bytes :=
  let key := padPkcs7 manager.password 16
  match aesNewCipher key with
  | .error err => .returned [] (some (.wrap "failed to create AES cipher" err))
  | .ok block =>
    -- cipher.NewCBCDecrypter(block, salt)
    if salt.length ≠ aesBlockSize then
      .panicked "cipher.NewCBCDecrypter: IV length must equal block size"
    -- data[:4] and data[4:]
    else if data.length < 4 then
      .panicked "slice bounds out of range"
    else
      let contentLength := uint32LE (data.take 4)
      let src := data.drop 4
      -- dest := make([]byte, len(data[4:])); decrypter.CryptBlocks(dest, data[4:])
      match cryptBlocks (P.cbcDecrypt block salt) src with
      | .error r => .panicked r
      | .ok dest =>
        -- dest[:contentLength], the capacity of dest is len(data[4:])
        if contentLength > src.length then
          .panicked "slice bounds out of range"
        else
          .returned (dest.take contentLength) none

/-- Method `encryptFilenamePGP`. The argument `rnd` is the result of
`rand.Read(salt)`: an error, or the 16 bytes written to `salt`. -/
def encryptFilenamePGP (P : Primitives) (manager : EncryptionManager)
    (rnd : Except GoError Bytes) (filename : Bytes) : Outcome Bytes :=
  if !manager.encryptFilename then .returned filename none
  else
    match rnd with
    | .error err => .returned [] (some (.wrap "failed to generate salt" err))
    | .ok salt =>
      match encryptAESCBC P manager filename salt with
      | .panicked r => .panicked r
      | .returned _ (some err) => .returned [] (some (.wrap "failed to encrypt filename" err))
      | .returned encryptedFilename none =>
        let concatenatedFilename := salt ++ encryptedFilename
        let b62EncodedFilename := P.base62Encode concatenatedFilename
        .returned (b62EncodedFilename ++ PgpEncryptedFileExtension) none

/-- Method `decryptFilenamePGP`. -/
def decryptFilenamePGP (P : Primitives) (manager : EncryptionManager)
    (filename : Bytes) : Outcome Bytes :=
  if !manager.encryptFilename then .returned filename none
  else
    let filename := trimSuffix filename PgpEncryptedFileExtension
    match P.base62Decode filename with
    | none => .returned [] (some (.wrap "failed to base62 decode filename" (.lib "base62")))
    | some concatenatedFilename =>
      if concatenatedFilename.length < aesSaltLen then
        .returned [] (some (.msg "failed to extract salt from filename"))
      else
        let salt := concatenatedFilename.take aesSaltLen
        let encryptedFilename := concatenatedFilename.drop aesSaltLen
        match decryptAESCBC P manager encryptedFilename salt with
        | .panicked r => .panicked r
        | .returned _ (some err) => .returned [] (some (.wrap "failed to decrypt filename" err))
        | .returned decryptedFilename none => .returned decryptedFilename none

/-- Method `encryptFilenameWinSCP`: the body is commented out in the source. -/
def encryptFilenameWinSCP (_manager : EncryptionManager) (_filename : Bytes) : Outcome Bytes :=
  .returned [] (some (.msg "not implemented"))

/-- Method `decryptFilenameWinSCP`: the body is commented out in the source. -/
def decryptFilenameWinSCP (_manager : EncryptionManager) (_filename : Bytes) : Outcome Bytes :=
  .returned [] (some (.msg "not implemented"))

/-- Method `EncryptFilename`. -/
def EncryptFilename (P : Primitives) (manager : EncryptionManager)
    (rnd : Except GoError Bytes) (filename : Bytes) : Outcome Bytes :=
  if manager.mode = EncryptionModeWinSCP then encryptFilenameWinSCP manager filename
  else if manager.mode = EncryptionModePGP then encryptFilenamePGP P manager rnd filename
  else encryptFilenamePGP P manager rnd filename

/-- Method `DecryptFilename`. -/
def DecryptFilename (P : Primitives) (manager : EncryptionManager)
    (filename : Bytes) : Outcome Bytes :=
  if manager.mode = EncryptionModeWinSCP then decryptFilenameWinSCP manager filename
  else if manager.mode = EncryptionModePGP then decryptFilenamePGP P manager filename
  else decryptFilenamePGP P manager filename

/-! ## Mode resolution -/

/-- ASCII upper-casing of one byte, as in the ASCII path of `strings.ToUpper`. -/
def upperByte (c : Byte) : Byte :=
  if 97 ≤ c.val ∧ c.val ≤ 122 then byteOf (c.val - 32) else c

/-- Function `strings.ToUpper`: a string of ASCII bytes only is upper-cased
byte by byte; any other string is mapped rune by rune through
`unicode.ToUpper`, which is the argument `unicodeToUpper`. -/
def toUpper (unicodeToUpper : Bytes → Bytes) (s : Bytes) : Bytes :=
  if s.all (fun c => decide (c.val < 128)) then s.map upperByte else unicodeToUpper s

/-- Function `GetEncryptionMode`. -/
def GetEncryptionMode (unicodeToUpper : Bytes → Bytes) (mode : Bytes) : EncryptionMode :=
  let upper := toUpper unicodeToUpper mode
  if upper = EncryptionModeWinSCP then EncryptionModeWinSCP
  else if upper = EncryptionModePGP ∨ upper = ascii "GPG" ∨ upper = ascii "OPENPGP" then
    EncryptionModePGP
  else EncryptionModeUnknown

/-- ASCII lower-casing of one byte. -/
def lowerByte (c : Byte) : Byte :=
  if 65 ≤ c.val ∧ c.val ≤ 90 then byteOf (c.val + 32) else c

/-- Two strings are equal ignoring letter case: they have the same length and
at every position the same byte up to the case of an ASCII letter. -/
def equalsIgnoringCase (s t : Bytes) : Prop := s.map lowerByte = t.map lowerByte

instance (s t : Bytes) : Decidable (equalsIgnoringCase s t) := by
  unfold equalsIgnoringCase; infer_instance

/-! ## Files -/

abbrev Path := Bytes

/-- What the code does to the file system, in order. -/
inductive FsEvent where
  | opened (path : Path)
  | created (path : Path)
  | wrote (path : Path) (data : Bytes)
  | closed (path : Path)
deriving DecidableEq, Repr

/-- Local file system: the regular files with their content, and the
operations done so far. -/
structure FileSystem where
  files : List (Path × Bytes)
  trace : List FsEvent
deriving DecidableEq, Repr

def FileSystem.read (fs : FileSystem) (path : Path) : Option Bytes :=
  fs.files.lookup path

def FileSystem.log (fs : FileSystem) (e : FsEvent) : FileSystem :=
  { fs with trace := fs.trace ++ [e] }

/-- Successful `os.OpenFile(path, O_WRONLY|O_CREATE|O_TRUNC, 0666)`. -/
def FileSystem.truncate (fs : FileSystem) (path : Path) : FileSystem :=
  { files := (path, []) :: fs.files.filter (fun e => decide (e.1 ≠ path)),
    trace := fs.trace ++ [.created path] }

/-- Successful write of `data` at the end of the open file `path`. -/
def FileSystem.append (fs : FileSystem) (path : Path) (data : Bytes) : FileSystem :=
  { files := fs.files.map (fun e => if e.1 = path then (e.1, e.2 ++ data) else e),
    trace := fs.trace ++ [.wrote path data] }

/-- Input/output failures that the environment may inject into one call. -/
structure Faults where
  /-- Failure of `os.OpenFile` on the target. -/
  openTarget : Option GoError
  /-- Failure of `openpgp.SymmetricallyEncrypt`. -/
  newWriter : Option GoError
  /-- Failure of `io.Copy` after that many plaintext bytes went through. -/
  copy : Option (Nat × GoError)
  /-- Failure of `writeHandle.Close()`: the trailer is not written. -/
  closeWriter : Option GoError
  /-- Failure of `targetFileHandle.Close()`. -/
  closeTarget : Option GoError
deriving DecidableEq, Repr

def noFaults : Faults :=
  { openTarget := none, newWriter := none, copy := none, closeWriter := none,
    closeTarget := none }

/-- Library golang.org/x/crypto/openpgp as used for file content. -/
structure OpenPGP where
  /-- Bytes written to the target by `SymmetricallyEncrypt`: password. -/
  header : Bytes → Bytes
  /-- Bytes written to the target while the plaintext goes through the writer:
  password, plaintext. -/
  body : Bytes → Bytes → Bytes
  /-- Bytes written to the target by `Close` of the writer: password, plaintext. -/
  trailer : Bytes → Bytes → Bytes
  /-- Error of `ReadMessage` met before any passphrase is asked for. -/
  parse : Bytes → Option GoError
  /-- Whether the passphrase opens the message: message, passphrase. -/
  passphraseOk : Bytes → Bytes → Bool
  /-- What `UnverifiedBody` delivers, and the read error that ends it if any:
  message, passphrase. -/
  plaintext : Bytes → Bytes → Bytes × Option GoError

/-- The closure `prompt` of `decryptFilePGP`; the captured variable `failed`
is passed in and out. The arguments `keys` and `symmetric` are not used. -/
def prompt (manager : EncryptionManager) (failed : Bool) : (Bytes × Option GoError) × Bool :=
  if failed then (([], some (.msg "decryption failed")), failed)
  else ((manager.password, none), true)

/-- Key search of `openpgp.ReadMessage`: it calls the prompt until the prompt
fails or gives a passphrase that opens the message. `none` when the fuel is
used up. -/
def findKey {σ : Type} (pgp : OpenPGP) (src : Bytes)
    (promptFn : σ → (Bytes × Option GoError) × σ) : Nat → σ → Option (Except GoError Bytes)
  | 0, _ => none
  | fuel + 1, st =>
    match promptFn st with
    | ((_, some e), _) => some (.error e)
    | ((pass, none), st') =>
      if pgp.passphraseOk src pass then some (.ok pass)
      else findKey pgp src promptFn fuel st'

/-- Function `openpgp.ReadMessage` on a message with a symmetric key packet:
the passphrase that opened the message, or the error. -/
def readMessage {σ : Type} (pgp : OpenPGP) (src : Bytes)
    (promptFn : σ → (Bytes × Option GoError) × σ) (fuel : Nat) (st : σ) :
    Option (Except GoError Bytes) :=
  match pgp.parse src with
  | some e => some (.error e)
  | none => findKey pgp src promptFn fuel st

/-- Method `encryptFileWinSCP`. -/
def encryptFileWinSCP (_manager : EncryptionManager) (_source _target : Path)
    (fs : FileSystem) : FileSystem × Option GoError :=
  (fs, some (.msg "not implemented"))

/-- Method `decryptFileWinSCP`. -/
def decryptFileWinSCP (_manager : EncryptionManager) (_source _target : Path)
    (fs : FileSystem) : FileSystem × Option GoError :=
  (fs, some (.msg "not implemented"))

/-- Method `encryptFilePGP`. The deferred calls run at every return after
their `defer`, last registered first, and their errors are dropped. The
source is read as it is after the target was opened. -/
def encryptFilePGP (pgp : OpenPGP) (faults : Faults) (manager : EncryptionManager)
    (source target : Path) (fs : FileSystem) : FileSystem × Option GoError :=
  match fs.read source with
  | none => (fs, some (.wrapf "failed to open file" source (.lib "os.Open")))
  | some _ =>
    let fs1 := fs.log (.opened source)
    match faults.openTarget with
    | some e => ((fs1.log (.closed source)), some (.wrapf "failed to create file" target e))
    | none =>
      let fs2 := fs1.truncate target
      let closeFiles := fun (f : FileSystem) => (f.log (.closed target)).log (.closed source)
      match faults.newWriter with
      | some e =>
        (closeFiles fs2, some (.wrapf "failed to create a encrypt writer for" target e))
      | none =>
        let fs3 := fs2.append target (pgp.header manager.password)
        let content := (fs2.read source).getD []
        -- deferred writeHandle.Close(): writes the trailer unless it fails
        let closeWriter := fun (f : FileSystem) (written : Bytes) =>
          match faults.closeWriter with
          | some _ => f
          | none => f.append target (pgp.trailer manager.password written)
        match faults.copy with
        | some (n, e) =>
          let written := content.take n
          let fs4 := fs3.append target (pgp.body manager.password written)
          (closeFiles (closeWriter fs4 written), some (.wrap "failed to encrypt data" e))
        | none =>
          let fs4 := fs3.append target (pgp.body manager.password content)
          (closeFiles (closeWriter fs4 content), none)

/-- Method `decryptFilePGP`. `none` when the key search of the library runs
out of fuel. -/
def decryptFilePGP (pgp : OpenPGP) (faults : Faults) (fuel : Nat)
    (manager : EncryptionManager) (source target : Path) (fs : FileSystem) :
    Option (FileSystem × Option GoError) :=
  match fs.read source with
  | none => some (fs, some (.wrapf "failed to open file" source (.lib "os.Open")))
  | some _ =>
    let fs1 := fs.log (.opened source)
    match faults.openTarget with
    | some e => some (fs1.log (.closed source), some (.wrapf "failed to create file" target e))
    | none =>
      let fs2 := fs1.truncate target
      let closeFiles := fun (f : FileSystem) => (f.log (.closed target)).log (.closed source)
      let message := (fs2.read source).getD []
      match readMessage pgp message (prompt manager) fuel false with
      | none => none
      | some (.error e) =>
        some (closeFiles fs2, some (.wrapf "failed to decrypt for" source e))
      | some (.ok pass) =>
        let delivered := (pgp.plaintext message pass).1
        let readErr := (pgp.plaintext message pass).2
        match faults.copy with
        | some (n, e) =>
          some (closeFiles (fs2.append target (delivered.take n)),
            some (.wrap "failed to decrypt data" e))
        | none =>
          match readErr with
          | some e =>
            some (closeFiles (fs2.append target delivered),
              some (.wrap "failed to decrypt data" e))
          | none => some (closeFiles (fs2.append target delivered), none)

/-- Method `EncryptFile`. -/
def EncryptFile (pgp : OpenPGP) (faults : Faults) (manager : EncryptionManager)
    (source target : Path) (fs : FileSystem) : FileSystem × Option GoError :=
  if manager.mode = EncryptionModeWinSCP then encryptFileWinSCP manager source target fs
  else if manager.mode = EncryptionModePGP then
    encryptFilePGP pgp faults manager source target fs
  else encryptFilePGP pgp faults manager source target fs

/-- Method `DecryptFile`. -/
def DecryptFile (pgp : OpenPGP) (faults : Faults) (fuel : Nat) (manager : EncryptionManager)
    (source target : Path) (fs : FileSystem) : Option (FileSystem × Option GoError) :=
  if manager.mode = EncryptionModeWinSCP then
    some (decryptFileWinSCP manager source target fs)
  else if manager.mode = EncryptionModePGP then
    decryptFilePGP pgp faults fuel manager source target fs
  else decryptFilePGP pgp faults fuel manager source target fs

/-- Token layout produced by `encryptFilenamePGP`, read off the code: the
base62 text of salt, 4-byte size header in clear, cipher blocks of the padded
name; then the extension. -/
def pgpToken (P : Primitives) (password salt name : Bytes) : Bytes :=
  P.base62Encode (salt ++ (putUint32LE (name.length % 2 ^ 32) ++
    P.cbcEncrypt (padPkcs7 password 16) salt (padPkcs7 name aesBlockSize)))
    ++ PgpEncryptedFileExtension

/-- Token layout in the words of the specification:
`base62(salt ‖ AES-CBC_ciphertext(len_le32 ‖ PKCS7pad(name)))` followed by the
PGP suffix marker, the ciphertext being taken over the size header and the
padded name together, with the salt as IV. CBC encrypts whole blocks only
(`cryptBlocks`); `none` when it cannot encrypt that plaintext. -/
def specToken (P : Primitives) (password salt name : Bytes) : Option Bytes :=
  match cryptBlocks (P.cbcEncrypt (padPkcs7 password 16) salt)
      (putUint32LE (name.length % 2 ^ 32) ++ padPkcs7 name aesBlockSize) with
  | .error _ => none
  | .ok c => some (P.base62Encode (salt ++ c) ++ PgpEncryptedFileExtension)

/-! ## A small instance of the libraries, to evaluate the code on concrete inputs -/

/-- Letters `A`..`P` for the 16 values of a half byte. -/
def demoDigit (n : Nat) : Byte := byteOf (65 + n % 16)

def demoEncode : Bytes → Bytes
  | [] => []
  | b :: rest => demoDigit (b.val / 16) :: demoDigit b.val :: demoEncode rest

def demoDecode : Bytes → Option Bytes
  | [] => some []
  | [_] => none
  | hi :: lo :: rest =>
    if 65 ≤ hi.val ∧ hi.val < 81 ∧ 65 ≤ lo.val ∧ lo.val < 81 then
      (demoDecode rest).map (fun r => byteOf ((hi.val - 65) * 16 + (lo.val - 65)) :: r)
    else none

/-- Byte that the demonstration cipher adds to every byte: the sum of key and IV. -/
def demoMask (key iv : Bytes) : Byte := (key ++ iv).sum

/-- Demonstration instance: two letters per byte as text encoding, and a
byte-wise shift by a key- and IV-dependent amount as cipher. -/
def demoPrimitives : Primitives where
  base62Encode := demoEncode
  base62Decode := demoDecode
  cbcEncrypt := fun key iv d => d.map (fun x => x + demoMask key iv)
  cbcDecrypt := fun key iv d => d.map (fun x => x - demoMask key iv)

/-- Demonstration instance of the file container: the header is the
passphrase behind its length, the body is the plaintext shifted by the sum
of the passphrase bytes, the trailer is one byte 255. -/
def demoOpenPGP : OpenPGP where
  header := fun pw => byteOf pw.length :: pw
  body := fun pw content => content.map (fun x => x + pw.sum)
  trailer := fun _ _ => [byteOf 255]
  parse := fun message => if message = [] then some (.lib "EOF") else none
  passphraseOk := fun message pass => (byteOf pass.length :: pass).isPrefixOf message
  plaintext := fun message pass =>
    let rest := message.drop (pass.length + 1)
    if rest.getLast? = some (byteOf 255) then
      (rest.dropLast.map (fun x => x - pass.sum), none)
    else (rest.map (fun x => x - pass.sum), some (.lib "unexpected EOF"))

/-- File system of the demonstrations: one plaintext file "a". -/
def demoFiles : FileSystem :=
  { files := [(ascii "a", ascii "hello")], trace := [] }

/-! ## Further definitions: token alphabet, prompt runs, container laws, listing -/

/-- ASCII letter or digit. -/
def isAlphanumeric (c : Byte) : Bool :=
  (decide (48 ≤ c.val) && decide (c.val ≤ 57)) || (decide (65 ≤ c.val) && decide (c.val ≤ 90))
    || (decide (97 ≤ c.val) && decide (c.val ≤ 122))

/-- What is assumed of the base62 alphabet: the text holds letters and digits
only, and only the empty input has the empty text. -/
structure Primitives.Alphanumeric (P : Primitives) : Prop where
  alnum : ∀ (b : Bytes) (c : Byte), c ∈ P.base62Encode b → isAlphanumeric c = true
  nonempty : ∀ b : Bytes, b ≠ [] → P.base62Encode b ≠ []

/-- Results of `n` successive invocations of the closure `prompt`, the
captured variable `failed` having the given value before the first one. -/
def promptCalls (manager : EncryptionManager) : Nat → Bool → List (Bytes × Option GoError)
  | 0, _ => []
  | n + 1, failed =>
    (prompt manager failed).1 :: promptCalls manager n (prompt manager failed).2

/-- Bytes of the container that `encryptFilePGP` leaves in the target when
nothing fails: header, body, trailer. -/
def OpenPGP.message (pgp : OpenPGP) (password content : Bytes) : Bytes :=
  pgp.header password ++ (pgp.body password content ++ pgp.trailer password content)

/-- What is assumed of the container library: a message written with a
password is parsed, opened by that password, and delivers the plaintext
without read error. -/
structure OpenPGP.Lawful (pgp : OpenPGP) : Prop where
  parse_ok : ∀ pw c : Bytes, pgp.parse (pgp.message pw c) = none
  passphrase_ok : ∀ pw c : Bytes, pgp.passphraseOk (pgp.message pw c) pw = true
  plaintext_ok : ∀ pw c : Bytes, pgp.plaintext (pgp.message pw c) pw = (c, none)

/-- Go `time.Time` as far as the listing code uses it: an instant and a
location. The methods `After`, `Before`, `Equal` compare the instants. -/
structure Time where
  unixNano : Int
  zoneOffset : Int
deriving DecidableEq, Repr

/-- Method `Time.After`. -/
def Time.After (t u : Time) : Bool := decide (u.unixNano < t.unixNano)

/-- Type `IRODSReplica` of go-irodsclient, the field the code reads. -/
structure IRODSReplica where
  ModifyTime : Time
deriving DecidableEq, Repr

/-- Type `IRODSDataObject` of go-irodsclient, the fields the code reads. -/
structure IRODSDataObject where
  Name : Bytes
  Size : Int
  Replicas : List IRODSReplica
deriving DecidableEq, Repr

/-- Method `getDataObjectModifyTime`. The error is the run-time panic of
`object.Replicas[0]` on an object without replica. -/
def getDataObjectModifyTime (object : IRODSDataObject) : Except String Time :=
  match object.Replicas with
  | [] => .error "index out of range [0] with length 0"
  | first :: rest =>
    .ok (rest.foldl
      (fun maxTime t => if t.ModifyTime.After maxTime then t.ModifyTime else maxTime)
      first.ModifyTime)

/-! ## Sort functions of the listing commands (`cmd/subcmd/ls.go`, `lsticket.go`) -/

/-- Type `commons.ListSortOrder`, declared outside the files at hand. The
four constants that the code names are distinct values; `other` stands for
every further value of the type (such as the order given when none is asked
for). -/
inductive ListSortOrder where
  | Name
  | Ext
  | Time
  | Size
  | other
deriving DecidableEq, Repr

/-- Go comparison `a < b` of two strings: byte-wise lexicographic. -/
def stringLess : Bytes → Bytes → Bool
  | _, [] => false
  | [], _ :: _ => true
  | a :: as, b :: bs =>
    if a.val < b.val then true
    else if b.val < a.val then false
    else stringLess as bs

/-- Go comparison `a > b` of two strings. -/
def stringGreater (a b : Bytes) : Bool := stringLess b a

/-- Method `Time.Before`. -/
def Time.Before (t u : Time) : Bool := decide (t.unixNano < u.unixNano)

/-- Method `Time.Equal`. -/
def Time.Equal (t u : Time) : Bool := decide (t.unixNano = u.unixNano)

/-- Loop of `path.Ext` from the last byte backwards: `rev` is what is left to
scan, reversed, and `seen` the bytes already passed. -/
def pathExtScan : Bytes → Bytes → Bytes
  | [], _ => []
  | c :: rev, seen =>
    if c.val = 47 then []
    else if c.val = 46 then c :: seen
    else pathExtScan rev (c :: seen)

/-- Function `path.Ext`: the suffix from the final dot of the final
slash-separated element, empty when there is no dot. -/
def pathExt (path : Bytes) : Bytes := pathExtScan path.reverse []

/-- Type `IRODSCollection` of go-irodsclient, the fields the code reads. -/
structure IRODSCollection where
  Name : Bytes
  ModifyTime : Time
deriving DecidableEq, Repr

/-- Type `IRODSTicket` of go-irodsclient, the fields the code reads. -/
structure IRODSTicket where
  Name : Bytes
  ExpirationTime : Time
deriving DecidableEq, Repr

/-- Method `getCollectionSortFunction`. The indices of the returned closure
are positions of `entries`, as `sort.SliceStable` passes them. -/
def getCollectionSortFunction (entries : List IRODSCollection) (sortOrder : ListSortOrder)
    (sortReverse : Bool) : Fin entries.length → Fin entries.length → Bool :=
  if sortReverse then
    match sortOrder with
    | .Name => fun i j => stringGreater (entries.get i).Name (entries.get j).Name
    | .Time => fun i j =>
      (entries.get i).ModifyTime.After (entries.get j).ModifyTime ||
        ((entries.get i).ModifyTime.Equal (entries.get j).ModifyTime &&
          stringLess (entries.get i).Name (entries.get j).Name)
    -- Cannot sort collections by size or extension, so use default sort by name
    | _ => fun i j => stringLess (entries.get i).Name (entries.get j).Name
  else
    match sortOrder with
    | .Name => fun i j => stringLess (entries.get i).Name (entries.get j).Name
    | .Time => fun i j =>
      (entries.get i).ModifyTime.Before (entries.get j).ModifyTime ||
        ((entries.get i).ModifyTime.Equal (entries.get j).ModifyTime &&
          stringLess (entries.get i).Name (entries.get j).Name)
    | _ => fun i j => stringLess (entries.get i).Name (entries.get j).Name

/-- Method `getTicketSortFunction`. -/
def getTicketSortFunction (tickets : List IRODSTicket) (sortOrder : ListSortOrder)
    (sortReverse : Bool) : Fin tickets.length → Fin tickets.length → Bool :=
  if sortReverse then
    match sortOrder with
    | .Name => fun i j => stringGreater (tickets.get i).Name (tickets.get j).Name
    | .Time => fun i j =>
      (tickets.get i).ExpirationTime.After (tickets.get j).ExpirationTime ||
        ((tickets.get i).ExpirationTime.Equal (tickets.get j).ExpirationTime &&
          stringLess (tickets.get i).Name (tickets.get j).Name)
    -- Cannot sort tickets by size or extension, so use default sort by name
    | _ => fun i j => stringLess (tickets.get i).Name (tickets.get j).Name
  else
    match sortOrder with
    | .Name => fun i j => stringLess (tickets.get i).Name (tickets.get j).Name
    | .Time => fun i j =>
      (tickets.get i).ExpirationTime.Before (tickets.get j).ExpirationTime ||
        ((tickets.get i).ExpirationTime.Equal (tickets.get j).ExpirationTime &&
          stringLess (tickets.get i).Name (tickets.get j).Name)
    | _ => fun i j => stringLess (tickets.get i).Name (tickets.get j).Name

/-- Comparison of the modify times of two data objects in the Time branches
of `getDataObjectSortFunction`; the error is the panic of
`getDataObjectModifyTime` on an object without replica. -/
def compareModifyTime (a b : IRODSDataObject) (first : Time → Time → Bool) :
    Except String Bool :=
  match getDataObjectModifyTime a, getDataObjectModifyTime b with
  | .ok ta, .ok tb => .ok (first ta tb || (ta.Equal tb && stringLess a.Name b.Name))
  | .error e, _ => .error e
  | _, .error e => .error e

/-- Method `getDataObjectSortFunction`. The closure fails only in the Time
branches, with the panic of `getDataObjectModifyTime`. -/
def getDataObjectSortFunction (entries : List IRODSDataObject) (sortOrder : ListSortOrder)
    (sortReverse : Bool) : Fin entries.length → Fin entries.length → Except String Bool :=
  if sortReverse then
    match sortOrder with
    | .Name => fun i j => .ok (stringGreater (entries.get i).Name (entries.get j).Name)
    | .Ext => fun i j =>
      .ok (stringGreater (pathExt (entries.get i).Name) (pathExt (entries.get j).Name) ||
        (decide (pathExt (entries.get i).Name = pathExt (entries.get j).Name) &&
          stringLess (entries.get i).Name (entries.get j).Name))
    | .Time => fun i j => compareModifyTime (entries.get i) (entries.get j) Time.After
    | .Size => fun i j =>
      .ok (decide ((entries.get i).Size > (entries.get j).Size) ||
        (decide ((entries.get i).Size = (entries.get j).Size) &&
          stringLess (entries.get i).Name (entries.get j).Name))
    | .other => fun i j => .ok (stringGreater (entries.get i).Name (entries.get j).Name)
  else
    match sortOrder with
    | .Name => fun i j => .ok (stringLess (entries.get i).Name (entries.get j).Name)
    | .Ext => fun i j =>
      .ok (stringLess (pathExt (entries.get i).Name) (pathExt (entries.get j).Name) ||
        (decide (pathExt (entries.get i).Name = pathExt (entries.get j).Name) &&
          stringLess (entries.get i).Name (entries.get j).Name))
    | .Time => fun i j => compareModifyTime (entries.get i) (entries.get j) Time.Before
    | .Size => fun i j =>
      .ok (decide ((entries.get i).Size < (entries.get j).Size) ||
        (decide ((entries.get i).Size = (entries.get j).Size) &&
          stringLess (entries.get i).Name (entries.get j).Name))
    | .other => fun i j => .ok (stringLess (entries.get i).Name (entries.get j).Name)

/-- Two collections named "a" and "b", in that order. -/
def demoCollections : List IRODSCollection :=
  [⟨ascii "a", ⟨5, 0⟩⟩, ⟨ascii "b", ⟨5, 0⟩⟩]

/-- Two tickets named "a" and "b", in that order. -/
def demoTickets : List IRODSTicket :=
  [⟨ascii "a", ⟨5, 0⟩⟩, ⟨ascii "b", ⟨5, 0⟩⟩]

/-- Two data objects named "a" and "b", in that order. -/
def demoDataObjects : List IRODSDataObject :=
  [⟨ascii "a", 1, [⟨⟨5, 0⟩⟩]⟩, ⟨ascii "b", 1, [⟨⟨5, 0⟩⟩]⟩]

/-- Faults of the demonstrations: the copy fails after two plaintext bytes. -/
def demoCopyFault : Faults :=
  { noFaults with copy := some (2, .lib "no space left on device") }

/-! ## Lemmas on the helpers -/

theorem padPkcs7_length (d : Bytes) :
    (padPkcs7 d 16).length = d.length + (16 - d.length % 16) := by
  simp [padPkcs7]

theorem padPkcs7_aligned (d : Bytes) : (padPkcs7 d 16).length % aesBlockSize = 0 := by
  rw [padPkcs7_length]
  show (d.length + (16 - d.length % 16)) % 16 = 0
  omega

theorem padPkcs7_take (d : Bytes) (b : Nat) : (padPkcs7 d b).take d.length = d := by
  simp [padPkcs7]

theorem aesNewCipher_pad_ok (pw : Bytes) (h : pw.length < 32) :
    aesNewCipher (padPkcs7 pw 16) = .ok (padPkcs7 pw 16) := by
  have hl := padPkcs7_length pw
  have : (padPkcs7 pw 16).length = 16 ∨ (padPkcs7 pw 16).length = 24 ∨
      (padPkcs7 pw 16).length = 32 := by omega
  simp [aesNewCipher, this]

theorem aesNewCipher_pad_error (pw : Bytes) (h : 32 ≤ pw.length) :
    aesNewCipher (padPkcs7 pw 16) = .error (.keySize (padPkcs7 pw 16).length) := by
  have hl := padPkcs7_length pw
  have : ¬ ((padPkcs7 pw 16).length = 16 ∨ (padPkcs7 pw 16).length = 24 ∨
      (padPkcs7 pw 16).length = 32) := by omega
  simp [aesNewCipher, this]

theorem uint32LE_putUint32LE (n : Nat) (h : n < 2 ^ 32) : uint32LE (putUint32LE n) = n := by
  simp only [putUint32LE, uint32LE, byteOf]
  omega

theorem trimSuffix_append (t suffix : Bytes) : trimSuffix (t ++ suffix) suffix = t := by
  have h : suffix.isSuffixOf (t ++ suffix) = true := by
    rw [List.isSuffixOf_iff_suffix]
    exact List.suffix_append t suffix
  simp [trimSuffix, h]

/-! ## Lemmas on the codec -/

theorem encryptAESCBC_ok (P : Primitives) (m : EncryptionManager) (data salt : Bytes)
    (hpw : m.password.length < 32) (hsalt : salt.length = 16) :
    encryptAESCBC P m data salt =
      .returned (putUint32LE (data.length % 2 ^ 32) ++
        P.cbcEncrypt (padPkcs7 m.password 16) salt (padPkcs7 data aesBlockSize)) none := by
  have hal : (padPkcs7 data 16).length % 16 = 0 := padPkcs7_aligned data
  simp [encryptAESCBC, aesNewCipher_pad_ok m.password hpw, hsalt, aesBlockSize, cryptBlocks, hal]

theorem encryptAESCBC_keyError (P : Primitives) (m : EncryptionManager) (data salt : Bytes)
    (hpw : 32 ≤ m.password.length) :
    encryptAESCBC P m data salt =
      .returned [] (some (.wrap "failed to create AES cipher"
        (.keySize (padPkcs7 m.password 16).length))) := by
  simp [encryptAESCBC, aesNewCipher_pad_error m.password hpw]

theorem encryptFilenamePGP_ok (P : Primitives) (m : EncryptionManager) (name salt : Bytes)
    (hflag : m.encryptFilename = true) (hpw : m.password.length < 32)
    (hsalt : salt.length = 16) :
    encryptFilenamePGP P m (.ok salt) name =
      .returned (pgpToken P m.password salt name) none := by
  simp [encryptFilenamePGP, hflag, encryptAESCBC_ok P m name salt hpw hsalt, pgpToken]

theorem encryptFilenamePGP_keyError (P : Primitives) (m : EncryptionManager) (name salt : Bytes)
    (hflag : m.encryptFilename = true) (hpw : 32 ≤ m.password.length) :
    encryptFilenamePGP P m (.ok salt) name =
      .returned [] (some (.wrap "failed to encrypt filename"
        (.wrap "failed to create AES cipher" (.keySize (padPkcs7 m.password 16).length)))) := by
  simp [encryptFilenamePGP, hflag, encryptAESCBC_keyError P m name salt hpw]

theorem decryptAESCBC_keyError (P : Primitives) (m : EncryptionManager) (data salt : Bytes)
    (hpw : 32 ≤ m.password.length) :
    decryptAESCBC P m data salt =
      .returned [] (some (.wrap "failed to create AES cipher"
        (.keySize (padPkcs7 m.password 16).length))) := by
  simp [decryptAESCBC, aesNewCipher_pad_error m.password hpw]

theorem decryptAESCBC_header (P : Primitives) (m : EncryptionManager) (n : Nat)
    (blocks salt : Bytes) (hpw : m.password.length < 32) (hsalt : salt.length = 16)
    (hn : n < 2 ^ 32) (hal : blocks.length % 16 = 0) (hle : n ≤ blocks.length) :
    decryptAESCBC P m (putUint32LE n ++ blocks) salt =
      .returned ((P.cbcDecrypt (padPkcs7 m.password 16) salt blocks).take n) none := by
  have h1 : (putUint32LE n ++ blocks).take 4 = putUint32LE n := by simp [putUint32LE]
  have h2 : (putUint32LE n ++ blocks).drop 4 = blocks := by simp [putUint32LE]
  have h3 : ¬ (putUint32LE n ++ blocks).length < 4 := by simp [putUint32LE]
  have h4 : ¬ n > blocks.length := by omega
  simp only [decryptAESCBC, aesNewCipher_pad_ok m.password hpw, hsalt, aesBlockSize,
    cryptBlocks, h1, h2, h3, h4, hal, uint32LE_putUint32LE n hn, ne_eq, not_true_eq_false,
    if_false]

/-- Decoding a token of the layout `pgpToken` under a manager with a valid
key: the first `len` bytes of the CBC decryption under the manager's key. -/
theorem decryptFilenamePGP_token (P : Primitives) (hP : P.Lawful) (m : EncryptionManager)
    (pw salt name : Bytes) (hflag : m.encryptFilename = true)
    (hpw : m.password.length < 32) (hsalt : salt.length = 16) :
    decryptFilenamePGP P m (pgpToken P pw salt name) =
      .returned ((P.cbcDecrypt (padPkcs7 m.password 16) salt
        (P.cbcEncrypt (padPkcs7 pw 16) salt (padPkcs7 name aesBlockSize))).take
          (name.length % 2 ^ 32)) none := by
  have hlen : (P.cbcEncrypt (padPkcs7 pw 16) salt (padPkcs7 name aesBlockSize)).length =
      name.length + (16 - name.length % 16) := by
    rw [hP.length_encrypt]; exact padPkcs7_length name
  have hdec := decryptAESCBC_header P m (name.length % 2 ^ 32)
    (P.cbcEncrypt (padPkcs7 pw 16) salt (padPkcs7 name aesBlockSize)) salt hpw hsalt
    (Nat.mod_lt _ (by decide)) (by rw [hlen]; omega)
    (by rw [hlen]; exact le_trans (Nat.mod_le _ _) (Nat.le_add_right _ _))
  have htake : ∀ r : Bytes, (salt ++ r).take 16 = salt := by
    intro r; rw [← hsalt]; simp
  have hdrop : ∀ r : Bytes, (salt ++ r).drop 16 = r := by
    intro r; rw [← hsalt]; simp
  simp only [decryptFilenamePGP, pgpToken, hflag, trimSuffix_append, hP.decode_encode,
    aesSaltLen, htake, hdrop, hdec, List.length_append, hsalt]
  simp

theorem decryptFilenamePGP_keyError (P : Primitives) (hP : P.Lawful) (m : EncryptionManager)
    (pw salt name : Bytes) (hflag : m.encryptFilename = true)
    (hpw : 32 ≤ m.password.length) (hsalt : salt.length = 16) :
    decryptFilenamePGP P m (pgpToken P pw salt name) =
      .returned [] (some (.wrap "failed to decrypt filename"
        (.wrap "failed to create AES cipher" (.keySize (padPkcs7 m.password 16).length)))) := by
  simp only [decryptFilenamePGP, pgpToken, hflag, trimSuffix_append, hP.decode_encode,
    aesSaltLen, decryptAESCBC_keyError P m _ _ hpw, List.length_append, hsalt]
  simp

/-! ## The demonstration instance satisfies the assumptions -/

theorem demoDecode_demoEncode (b : Bytes) : demoDecode (demoEncode b) = some b := by
  induction b with
  | nil => rfl
  | cons x rest ih =>
    have hx := x.isLt
    have h1 : (demoDigit (x.val / 16)).val = 65 + x.val / 16 := by
      simp only [demoDigit, byteOf]; omega
    have h2 : (demoDigit x.val).val = 65 + x.val % 16 := by
      simp only [demoDigit, byteOf]; omega
    have h3 : byteOf ((65 + x.val / 16 - 65) * 16 + (65 + x.val % 16 - 65)) = x := by
      apply Fin.ext
      simp only [byteOf]; omega
    have hc : 65 ≤ 65 + x.val / 16 ∧ 65 + x.val / 16 < 81 ∧ 65 ≤ 65 + x.val % 16 ∧
        65 + x.val % 16 < 81 := by omega
    simp only [demoEncode, demoDecode, h1, h2, h3, hc, ih, and_self, if_true, Option.map_some']

theorem demoPrimitives_lawful : demoPrimitives.Lawful where
  decode_encode := demoDecode_demoEncode
  length_encrypt := by intro k iv d; simp [demoPrimitives]
  length_decrypt := by intro k iv d; simp [demoPrimitives]
  decrypt_encrypt := by
    intro k iv d _
    simp [demoPrimitives, List.map_map, Function.comp_def]

/-! ## Dispatch and round trip -/

theorem pgp_ne_winscp : EncryptionModePGP ≠ EncryptionModeWinSCP := by decide

theorem unknown_ne_winscp : EncryptionModeUnknown ≠ EncryptionModeWinSCP := by decide

theorem unknown_ne_pgp : EncryptionModeUnknown ≠ EncryptionModePGP := by decide

theorem EncryptFilename_of_ne_winscp (P : Primitives) (m : EncryptionManager)
    (rnd : Except GoError Bytes) (n : Bytes) (h : m.mode ≠ EncryptionModeWinSCP) :
    EncryptFilename P m rnd n = encryptFilenamePGP P m rnd n := by
  simp [EncryptFilename, h]

theorem DecryptFilename_of_ne_winscp (P : Primitives) (m : EncryptionManager)
    (n : Bytes) (h : m.mode ≠ EncryptionModeWinSCP) :
    DecryptFilename P m n = decryptFilenamePGP P m n := by
  simp [DecryptFilename, h]

/-- Decoding a token under the key that produced it gives the name back. -/
theorem decryptFilenamePGP_same_key (P : Primitives) (hP : P.Lawful) (m : EncryptionManager)
    (salt name : Bytes) (hflag : m.encryptFilename = true) (hpw : m.password.length < 32)
    (hsalt : salt.length = 16) (hname : name.length < 2 ^ 32) :
    decryptFilenamePGP P m (pgpToken P m.password salt name) = .returned name none := by
  have hinv := hP.decrypt_encrypt (padPkcs7 m.password 16) salt (padPkcs7 name aesBlockSize)
    (padPkcs7_aligned name)
  rw [decryptFilenamePGP_token P hP m m.password salt name hflag hpw hsalt, hinv,
    Nat.mod_eq_of_lt hname, padPkcs7_take]

/-- A name of exactly 2^32 bytes has the size header 0: under the right key
the token decodes, without error, to the empty name. -/
theorem decryptFilenamePGP_name_of_4GiB (P : Primitives) (hP : P.Lawful)
    (m : EncryptionManager) (salt name : Bytes) (hflag : m.encryptFilename = true)
    (hpw : m.password.length < 32) (hsalt : salt.length = 16)
    (hname : name.length = 2 ^ 32) :
    decryptFilenamePGP P m (pgpToken P m.password salt name) = .returned [] none := by
  rw [decryptFilenamePGP_token P hP m m.password salt name hflag hpw hsalt, hname,
    Nat.mod_self, List.take_zero]

/-! ## C1 -/

/-- C1, counterexample. With a password of 32 bytes the padded key has 48
bytes and `aes.NewCipher` refuses it: `EncryptFilename` returns the empty
string and an error, and `DecryptFilename` of that string does not return the
name. -/
theorem C1_roundtrip_fails_for_32_byte_password :
    EncryptFilename demoPrimitives
        (NewEncryptionManager EncryptionModePGP true (List.replicate 32 (byteOf 107)))
        (.ok (List.replicate 16 (byteOf 7))) (ascii "a")
      = .returned [] (some (.wrap "failed to encrypt filename"
          (.wrap "failed to create AES cipher" (.keySize 48))))
    ∧ DecryptFilename demoPrimitives
        (NewEncryptionManager EncryptionModePGP true (List.replicate 32 (byteOf 107))) []
      ≠ .returned (ascii "a") none := by
  decide

/-- C1, amended. For every name shorter than 2^32 bytes, every password
shorter than 32 bytes and every 16-byte salt, on a manager built with PGP
mode, filename obfuscation enabled and that password, `EncryptFilename`
returns a token and `DecryptFilename` of that token succeeds and returns
exactly the name (base62 and CBC being inverted by their decoders). -/
theorem C1_filename_roundtrip (P : Primitives) (hP : P.Lawful) (F K salt : Bytes)
    (hK : K.length < 32) (hF : F.length < 2 ^ 32) (hsalt : salt.length = 16) :
    ∃ t, EncryptFilename P (NewEncryptionManager EncryptionModePGP true K) (.ok salt) F
          = .returned t none
      ∧ DecryptFilename P (NewEncryptionManager EncryptionModePGP true K) t
          = .returned F none := by
  refine ⟨pgpToken P K salt F, ?_, ?_⟩
  · rw [EncryptFilename_of_ne_winscp _ _ _ _ pgp_ne_winscp]
    exact encryptFilenamePGP_ok P _ F salt rfl hK hsalt
  · rw [DecryptFilename_of_ne_winscp _ _ _ pgp_ne_winscp]
    exact decryptFilenamePGP_same_key P hP (NewEncryptionManager EncryptionModePGP true K)
      salt F rfl hK hsalt hF

theorem C1_filename_roundtrip_witness :
    ∃ t, EncryptFilename demoPrimitives
            (NewEncryptionManager EncryptionModePGP true (ascii "hunter2"))
            (.ok (List.replicate 16 (byteOf 7))) (ascii "notes.txt") = .returned t none
      ∧ DecryptFilename demoPrimitives
            (NewEncryptionManager EncryptionModePGP true (ascii "hunter2")) t
          = .returned (ascii "notes.txt") none :=
  C1_filename_roundtrip demoPrimitives demoPrimitives_lawful (ascii "notes.txt")
    (ascii "hunter2") (List.replicate 16 (byteOf 7)) (by decide) (by decide) (by decide)

/-! ## C2 -/

/-- C2. For every manager (any mode, either obfuscation setting, any
password), every name shorter than 2^32 bytes and every 16-byte salt: if
`EncryptFilename` returns a token without error, then `DecryptFilename` of
that token on the same manager returns exactly the name without error
(base62 and CBC being inverted by their decoders). -/
theorem C2_correct_key_decrypts (P : Primitives) (hP : P.Lawful) (m : EncryptionManager)
    (F salt t : Bytes) (hF : F.length < 2 ^ 32) (hsalt : salt.length = 16)
    (henc : EncryptFilename P m (.ok salt) F = .returned t none) :
    DecryptFilename P m t = .returned F none := by
  by_cases hmode : m.mode = EncryptionModeWinSCP
  · simp [EncryptFilename, hmode, encryptFilenameWinSCP] at henc
  · rw [EncryptFilename_of_ne_winscp _ _ _ _ hmode] at henc
    rw [DecryptFilename_of_ne_winscp _ _ _ hmode]
    cases hflag : m.encryptFilename with
    | false =>
      simp [encryptFilenamePGP, hflag] at henc
      simp [decryptFilenamePGP, hflag, henc]
    | true =>
      by_cases hpw : m.password.length < 32
      · rw [encryptFilenamePGP_ok P m F salt hflag hpw hsalt] at henc
        have ht : pgpToken P m.password salt F = t := by
          injection henc
        rw [← ht]
        exact decryptFilenamePGP_same_key P hP m salt F hflag hpw hsalt hF
      · rw [encryptFilenamePGP_keyError P m F salt hflag (by omega)] at henc
        simp at henc

/-- The scenario of the specification: password "hunter2", name
"secret-report.csv". -/
theorem C2_correct_key_decrypts_witness :
    EncryptFilename demoPrimitives (NewEncryptionManager EncryptionModePGP true (ascii "hunter2"))
        (.ok (List.replicate 16 (byteOf 7))) (ascii "secret-report.csv")
      = .returned (pgpToken demoPrimitives (ascii "hunter2") (List.replicate 16 (byteOf 7))
          (ascii "secret-report.csv")) none
    ∧ DecryptFilename demoPrimitives
        (NewEncryptionManager EncryptionModePGP true (ascii "hunter2"))
        (pgpToken demoPrimitives (ascii "hunter2") (List.replicate 16 (byteOf 7))
          (ascii "secret-report.csv"))
      = .returned (ascii "secret-report.csv") none :=
  ⟨by decide,
   C2_correct_key_decrypts demoPrimitives demoPrimitives_lawful
    (NewEncryptionManager EncryptionModePGP true (ascii "hunter2"))
    (ascii "secret-report.csv") (List.replicate 16 (byteOf 7)) _ (by decide) (by decide)
    (by decide)⟩

/-! ## C3 -/

theorem key_setup_ok_iff (K : Bytes) :
    (∃ block, aesNewCipher (padPkcs7 K 16) = .ok block) ↔ K.length < 32 := by
  constructor
  · rintro ⟨block, hb⟩
    by_contra hlt
    rw [aesNewCipher_pad_error K (by omega)] at hb
    cases hb
  · intro h
    exact ⟨_, aesNewCipher_pad_ok K h⟩

theorem pgpToken_salt_injective (P : Primitives) (hP : P.Lawful) (K F s1 s2 : Bytes)
    (h1 : s1.length = 16) (h2 : s2.length = 16)
    (heq : pgpToken P K s1 F = pgpToken P K s2 F) : s1 = s2 := by
  unfold pgpToken at heq
  have henc := (List.append_inj' heq rfl).1
  have hdec := congrArg P.base62Decode henc
  rw [hP.decode_encode, hP.decode_encode] at hdec
  have hcat := Option.some.inj hdec
  exact (List.append_inj hcat (by rw [h1, h2])).1

/-- C3. With the 16-byte salt as an explicit input of `EncryptFilename` (PGP
mode, obfuscation enabled, a password for which the key setup succeeds), for
every name and every two different salts both calls return a token and the
two tokens are different strings (base62 decoding inverting encoding). -/
theorem C3_salt_randomisation (P : Primitives) (hP : P.Lawful) (F K s1 s2 : Bytes)
    (hkey : ∃ block, aesNewCipher (padPkcs7 K 16) = .ok block)
    (h1 : s1.length = 16) (h2 : s2.length = 16) (hne : s1 ≠ s2) :
    ∃ t1 t2,
      EncryptFilename P (NewEncryptionManager EncryptionModePGP true K) (.ok s1) F
        = .returned t1 none
      ∧ EncryptFilename P (NewEncryptionManager EncryptionModePGP true K) (.ok s2) F
        = .returned t2 none
      ∧ t1 ≠ t2 := by
  have hK : K.length < 32 := (key_setup_ok_iff K).1 hkey
  refine ⟨pgpToken P K s1 F, pgpToken P K s2 F, ?_, ?_, ?_⟩
  · rw [EncryptFilename_of_ne_winscp _ _ _ _ pgp_ne_winscp]
    exact encryptFilenamePGP_ok P _ F s1 rfl hK h1
  · rw [EncryptFilename_of_ne_winscp _ _ _ _ pgp_ne_winscp]
    exact encryptFilenamePGP_ok P _ F s2 rfl hK h2
  · intro heq
    exact hne (pgpToken_salt_injective P hP K F s1 s2 h1 h2 heq)

theorem C3_salt_randomisation_witness :
    ∃ t1 t2,
      EncryptFilename demoPrimitives
          (NewEncryptionManager EncryptionModePGP true (ascii "hunter2"))
          (.ok (List.replicate 16 (byteOf 1))) (ascii "secret-report.csv") = .returned t1 none
      ∧ EncryptFilename demoPrimitives
          (NewEncryptionManager EncryptionModePGP true (ascii "hunter2"))
          (.ok (List.replicate 16 (byteOf 2))) (ascii "secret-report.csv") = .returned t2 none
      ∧ t1 ≠ t2 :=
  C3_salt_randomisation demoPrimitives demoPrimitives_lawful (ascii "secret-report.csv")
    (ascii "hunter2") (List.replicate 16 (byteOf 1)) (List.replicate 16 (byteOf 2))
    ⟨padPkcs7 (ascii "hunter2") 16, aesNewCipher_pad_ok (ascii "hunter2") (by decide)⟩
    (by decide) (by decide) (by decide)

/-! ## C4 -/

/-- C4, counterexample. The token of the empty name made under "hunter2"
decrypts under the different password "wrongpass" without error to the empty
name: the size header 0 is read in clear and no byte of the wrong-key
decryption is returned. -/
theorem C4_wrong_key_returns_empty_name :
    ascii "hunter2" ≠ ascii "wrongpass"
    ∧ EncryptFilename demoPrimitives
          (NewEncryptionManager EncryptionModePGP true (ascii "hunter2"))
          (.ok (List.replicate 16 (byteOf 7))) []
        = .returned (pgpToken demoPrimitives (ascii "hunter2")
            (List.replicate 16 (byteOf 7)) []) none
    ∧ DecryptFilename demoPrimitives
          (NewEncryptionManager EncryptionModePGP true (ascii "wrongpass"))
          (pgpToken demoPrimitives (ascii "hunter2") (List.replicate 16 (byteOf 7)) [])
        = .returned [] none := by
  decide

/-- C4, amended. For every name shorter than 2^32 bytes, every 16-byte salt
and every two passwords `K` (shorter than 32 bytes) and `K'`: the token `t`
that `EncryptFilename` yields under `K` is handled by `DecryptFilename` under
`K'` (PGP mode, obfuscation enabled) as follows. If `K'` has 32 bytes or more
it returns an error and the empty string. Otherwise it returns without error
the first `len(F)` bytes of the CBC decryption under the key of `K'` of the
cipher blocks: no check rejects a wrong key, and the result is `F` exactly
when those bytes are `F` (always so for the empty name). -/
theorem C4_wrong_key_result (P : Primitives) (hP : P.Lawful) (F salt K K' : Bytes)
    (hK : K.length < 32) (hF : F.length < 2 ^ 32) (hsalt : salt.length = 16) :
    ∃ t, EncryptFilename P (NewEncryptionManager EncryptionModePGP true K) (.ok salt) F
          = .returned t none
      ∧ (32 ≤ K'.length →
          ∃ e, DecryptFilename P (NewEncryptionManager EncryptionModePGP true K') t
            = .returned [] (some e))
      ∧ (K'.length < 32 →
          DecryptFilename P (NewEncryptionManager EncryptionModePGP true K') t
            = .returned ((P.cbcDecrypt (padPkcs7 K' 16) salt
                (P.cbcEncrypt (padPkcs7 K 16) salt (padPkcs7 F aesBlockSize))).take F.length)
                none)
      ∧ (F = [] → K'.length < 32 →
          DecryptFilename P (NewEncryptionManager EncryptionModePGP true K') t
            = .returned F none) := by
  have hlt : ∀ hK' : K'.length < 32,
      DecryptFilename P (NewEncryptionManager EncryptionModePGP true K') (pgpToken P K salt F)
        = .returned ((P.cbcDecrypt (padPkcs7 K' 16) salt
            (P.cbcEncrypt (padPkcs7 K 16) salt (padPkcs7 F aesBlockSize))).take F.length)
            none := by
    intro hK'
    rw [DecryptFilename_of_ne_winscp _ _ _ pgp_ne_winscp,
      decryptFilenamePGP_token P hP (NewEncryptionManager EncryptionModePGP true K') K salt F
        rfl hK' hsalt, Nat.mod_eq_of_lt hF]
    rfl
  refine ⟨pgpToken P K salt F, ?_, ?_, hlt, ?_⟩
  · rw [EncryptFilename_of_ne_winscp _ _ _ _ pgp_ne_winscp]
    exact encryptFilenamePGP_ok P _ F salt rfl hK hsalt
  · intro hK'
    rw [DecryptFilename_of_ne_winscp _ _ _ pgp_ne_winscp]
    exact ⟨_, decryptFilenamePGP_keyError P hP
      (NewEncryptionManager EncryptionModePGP true K') K salt F rfl hK' hsalt⟩
  · intro hnil hK'
    rw [hlt hK', hnil]
    rfl

theorem C4_wrong_key_result_witness :
    ∃ t, EncryptFilename demoPrimitives
            (NewEncryptionManager EncryptionModePGP true (ascii "hunter2"))
            (.ok (List.replicate 16 (byteOf 7))) (ascii "secret-report.csv")
          = .returned t none
      ∧ (32 ≤ (ascii "wrongpass").length →
          ∃ e, DecryptFilename demoPrimitives
              (NewEncryptionManager EncryptionModePGP true (ascii "wrongpass")) t
            = .returned [] (some e))
      ∧ ((ascii "wrongpass").length < 32 →
          DecryptFilename demoPrimitives
              (NewEncryptionManager EncryptionModePGP true (ascii "wrongpass")) t
            = .returned ((demoPrimitives.cbcDecrypt (padPkcs7 (ascii "wrongpass") 16)
                (List.replicate 16 (byteOf 7))
                (demoPrimitives.cbcEncrypt (padPkcs7 (ascii "hunter2") 16)
                  (List.replicate 16 (byteOf 7))
                  (padPkcs7 (ascii "secret-report.csv") aesBlockSize))).take
                (ascii "secret-report.csv").length) none)
      ∧ (ascii "secret-report.csv" = [] → (ascii "wrongpass").length < 32 →
          DecryptFilename demoPrimitives
              (NewEncryptionManager EncryptionModePGP true (ascii "wrongpass")) t
            = .returned (ascii "secret-report.csv") none) :=
  C4_wrong_key_result demoPrimitives demoPrimitives_lawful (ascii "secret-report.csv")
    (List.replicate 16 (byteOf 7)) (ascii "hunter2") (ascii "wrongpass")
    (by decide) (by decide) (by decide)

/-! ## C5 -/

/-- C5. For every manager whose mode is WinSCP (any obfuscation setting, any
password) and every input: `EncryptFilename` and `DecryptFilename` return an
error together with the empty string, and `EncryptFile` and `DecryptFile`
return an error and leave the file system as it was, with no file opened,
created or truncated. -/
theorem C5_winscp_clean_failure (P : Primitives) (pgp : OpenPGP) (faults : Faults)
    (fuel : Nat) (flag : Bool) (password : Bytes) (rnd : Except GoError Bytes)
    (name source target : Bytes) (fs : FileSystem) :
    EncryptFilename P (NewEncryptionManager EncryptionModeWinSCP flag password) rnd name
      = .returned [] (some (.msg "not implemented"))
    ∧ DecryptFilename P (NewEncryptionManager EncryptionModeWinSCP flag password) name
      = .returned [] (some (.msg "not implemented"))
    ∧ EncryptFile pgp faults (NewEncryptionManager EncryptionModeWinSCP flag password)
        source target fs = (fs, some (.msg "not implemented"))
    ∧ DecryptFile pgp faults fuel (NewEncryptionManager EncryptionModeWinSCP flag password)
        source target fs = some (fs, some (.msg "not implemented")) := by
  simp [EncryptFilename, DecryptFilename, EncryptFile, DecryptFile, NewEncryptionManager,
    encryptFilenameWinSCP, decryptFilenameWinSCP, encryptFileWinSCP, decryptFileWinSCP]

/-! ## C6 -/

/-- C6, counterexample. A manager in WinSCP mode with filename obfuscation
disabled does not return the name: both operations return the empty string
and the error "not implemented". -/
theorem C6_winscp_disabled_is_not_identity :
    EncryptFilename demoPrimitives
        (NewEncryptionManager EncryptionModeWinSCP false (ascii "hunter2"))
        (.ok (List.replicate 16 (byteOf 7))) (ascii "a")
      = .returned [] (some (.msg "not implemented"))
    ∧ DecryptFilename demoPrimitives
        (NewEncryptionManager EncryptionModeWinSCP false (ascii "hunter2")) (ascii "a")
      = .returned [] (some (.msg "not implemented")) := by
  decide

/-- C6, amended. For every manager constructed with encryptFilename = false
whose mode is not WinSCP (PGP, Unknown, or any other mode string), whatever
its password and whatever the random source gives, `EncryptFilename(n)` and
`DecryptFilename(n)` both succeed and return `n` unchanged. -/
theorem C6_disabled_is_identity (P : Primitives) (mode : EncryptionMode) (password : Bytes)
    (rnd : Except GoError Bytes) (n : Bytes) (hmode : mode ≠ EncryptionModeWinSCP) :
    EncryptFilename P (NewEncryptionManager mode false password) rnd n = .returned n none
    ∧ DecryptFilename P (NewEncryptionManager mode false password) n = .returned n none := by
  constructor
  · rw [EncryptFilename_of_ne_winscp _ _ _ _ hmode]
    simp [encryptFilenamePGP, NewEncryptionManager]
  · rw [DecryptFilename_of_ne_winscp _ _ _ hmode]
    simp [decryptFilenamePGP, NewEncryptionManager]

theorem C6_disabled_is_identity_witness :
    EncryptFilename demoPrimitives
        (NewEncryptionManager EncryptionModeUnknown false (ascii "hunter2"))
        (.error (.lib "crypto/rand")) (ascii "secret-report.csv")
      = .returned (ascii "secret-report.csv") none
    ∧ DecryptFilename demoPrimitives
        (NewEncryptionManager EncryptionModeUnknown false (ascii "hunter2"))
        (ascii "secret-report.csv")
      = .returned (ascii "secret-report.csv") none :=
  C6_disabled_is_identity demoPrimitives EncryptionModeUnknown (ascii "hunter2")
    (.error (.lib "crypto/rand")) (ascii "secret-report.csv") unknown_ne_winscp

/-! ## C7 -/

theorem DecryptFile_of_ne_winscp (pgp : OpenPGP) (faults : Faults) (fuel : Nat)
    (m : EncryptionManager) (source target : Path) (fs : FileSystem)
    (h : m.mode ≠ EncryptionModeWinSCP) :
    DecryptFile pgp faults fuel m source target fs
      = decryptFilePGP pgp faults fuel m source target fs := by
  simp [DecryptFile, h]

/-- C7, counterexample. A manager in Unknown mode with filename obfuscation
enabled decrypts: the token that the PGP filename codec produced for
"secret-report.csv" under "hunter2" is turned back into that name by
`DecryptFilename`, without error. -/
theorem C7_unknown_mode_decrypts :
    encryptFilenamePGP demoPrimitives
        (NewEncryptionManager EncryptionModePGP true (ascii "hunter2"))
        (.ok (List.replicate 16 (byteOf 7))) (ascii "secret-report.csv")
      = .returned (pgpToken demoPrimitives (ascii "hunter2") (List.replicate 16 (byteOf 7))
          (ascii "secret-report.csv")) none
    ∧ DecryptFilename demoPrimitives
        (NewEncryptionManager EncryptionModeUnknown true (ascii "hunter2"))
        (pgpToken demoPrimitives (ascii "hunter2") (List.replicate 16 (byteOf 7))
          (ascii "secret-report.csv"))
      = .returned (ascii "secret-report.csv") none
    ∧ pgpToken demoPrimitives (ascii "hunter2") (List.replicate 16 (byteOf 7))
          (ascii "secret-report.csv") ≠ ascii "secret-report.csv" := by
  decide

/-- C7, amended. A manager whose mode is Unknown (obfuscation enabled) falls
back to the PGP codec for decryption just as for encryption:
`DecryptFilename` is `decryptFilenamePGP` on every input, so for every token
produced by the PGP filename codec under the same password (shorter than 32
bytes; name shorter than 2^32 bytes, 16-byte salt) it returns the plaintext
name; and `DecryptFile` is `decryptFilePGP`. -/
theorem C7_unknown_mode_uses_pgp_codec (P : Primitives) (hP : P.Lawful) (pgp : OpenPGP)
    (faults : Faults) (fuel : Nat) (K F salt : Bytes) (source target : Path)
    (fs : FileSystem) (hK : K.length < 32) (hF : F.length < 2 ^ 32)
    (hsalt : salt.length = 16) :
    (∀ t, DecryptFilename P (NewEncryptionManager EncryptionModeUnknown true K) t
        = decryptFilenamePGP P (NewEncryptionManager EncryptionModeUnknown true K) t)
    ∧ (∃ t, encryptFilenamePGP P (NewEncryptionManager EncryptionModePGP true K) (.ok salt) F
          = .returned t none
        ∧ DecryptFilename P (NewEncryptionManager EncryptionModeUnknown true K) t
          = .returned F none)
    ∧ DecryptFile pgp faults fuel (NewEncryptionManager EncryptionModeUnknown true K)
        source target fs
      = decryptFilePGP pgp faults fuel (NewEncryptionManager EncryptionModeUnknown true K)
        source target fs := by
  refine ⟨fun t => DecryptFilename_of_ne_winscp _ _ _ unknown_ne_winscp, ?_,
    DecryptFile_of_ne_winscp _ _ _ _ _ _ _ unknown_ne_winscp⟩
  refine ⟨pgpToken P K salt F, encryptFilenamePGP_ok P _ F salt rfl hK hsalt, ?_⟩
  rw [DecryptFilename_of_ne_winscp _ _ _ unknown_ne_winscp]
  exact decryptFilenamePGP_same_key P hP (NewEncryptionManager EncryptionModeUnknown true K)
    salt F rfl hK hsalt hF

theorem C7_unknown_mode_uses_pgp_codec_witness :
    (∀ t, DecryptFilename demoPrimitives
          (NewEncryptionManager EncryptionModeUnknown true (ascii "hunter2")) t
        = decryptFilenamePGP demoPrimitives
          (NewEncryptionManager EncryptionModeUnknown true (ascii "hunter2")) t)
    ∧ (∃ t, encryptFilenamePGP demoPrimitives
            (NewEncryptionManager EncryptionModePGP true (ascii "hunter2"))
            (.ok (List.replicate 16 (byteOf 7))) (ascii "notes.txt") = .returned t none
        ∧ DecryptFilename demoPrimitives
            (NewEncryptionManager EncryptionModeUnknown true (ascii "hunter2")) t
          = .returned (ascii "notes.txt") none)
    ∧ DecryptFile demoOpenPGP noFaults 2
        (NewEncryptionManager EncryptionModeUnknown true (ascii "hunter2"))
        (ascii "a") (ascii "b") demoFiles
      = decryptFilePGP demoOpenPGP noFaults 2
        (NewEncryptionManager EncryptionModeUnknown true (ascii "hunter2"))
        (ascii "a") (ascii "b") demoFiles :=
  C7_unknown_mode_uses_pgp_codec demoPrimitives demoPrimitives_lawful demoOpenPGP noFaults 2
    (ascii "hunter2") (ascii "notes.txt") (List.replicate 16 (byteOf 7)) (ascii "a")
    (ascii "b") demoFiles (by decide) (by decide) (by decide)

/-! ## C8 -/

theorem upperByte_eq_iff (c w : Byte) (h1 : 65 ≤ w.val) (h2 : w.val ≤ 90) :
    upperByte c = w ↔ lowerByte c = lowerByte w := by
  have hc := c.isLt
  have hw := w.isLt
  unfold upperByte lowerByte byteOf
  split_ifs <;> simp only [Fin.ext_iff] <;> omega

theorem map_upperByte_eq_iff (s t : Bytes) (ht : ∀ w ∈ t, 65 ≤ w.val ∧ w.val ≤ 90) :
    s.map upperByte = t ↔ equalsIgnoringCase s t := by
  unfold equalsIgnoringCase
  induction s generalizing t with
  | nil => cases t <;> simp
  | cons c cs ih =>
    cases t with
    | nil => simp
    | cons w ws =>
      have hw := ht w (List.mem_cons_self w ws)
      have hws : ∀ x ∈ ws, 65 ≤ x.val ∧ x.val ≤ 90 :=
        fun x hx => ht x (List.mem_cons_of_mem w hx)
      simp only [List.map_cons, List.cons.injEq, upperByte_eq_iff c w hw.1 hw.2, ih ws hws]

set_option maxRecDepth 8000 in
theorem mode_names_upper :
    (∀ w ∈ ascii "WINSCP", 65 ≤ w.val ∧ w.val ≤ 90)
    ∧ (∀ w ∈ ascii "PGP", 65 ≤ w.val ∧ w.val ≤ 90)
    ∧ (∀ w ∈ ascii "GPG", 65 ≤ w.val ∧ w.val ≤ 90)
    ∧ (∀ w ∈ ascii "OPENPGP", 65 ≤ w.val ∧ w.val ≤ 90) := by
  decide

theorem toUpper_ascii (u : Bytes → Bytes) (s : Bytes) (h : ∀ c ∈ s, c.val < 128) :
    toUpper u s = s.map upperByte := by
  have : s.all (fun c => decide (c.val < 128)) = true := by
    simpa [List.all_eq_true] using h
  simp [toUpper, this]

/-- The `switch` of `GetEncryptionMode` over arbitrary distinct mode values. -/
theorem switch_three_way {α : Type} [DecidableEq α] (W P G O U up : α)
    (e1 : P ≠ W) (e2 : U ≠ W) (e3 : U ≠ P) (e4 : W ≠ G) (e5 : W ≠ O) :
    ((if up = W then W else if up = P ∨ up = G ∨ up = O then P else U) = W ↔ up = W)
    ∧ ((if up = W then W else if up = P ∨ up = G ∨ up = O then P else U) = P ↔
        (up = P ∨ up = G ∨ up = O))
    ∧ ((¬ up = W ∧ ¬ up = P ∧ ¬ up = G ∧ ¬ up = O) ↔
        (if up = W then W else if up = P ∨ up = G ∨ up = O then P else U) = U) := by
  have e1' : W ≠ P := e1.symm
  have e2' : W ≠ U := e2.symm
  have e3' : P ≠ U := e3.symm
  by_cases h1 : up = W
  · subst h1
    rw [if_pos rfl]
    refine ⟨?_, ?_, ?_⟩ <;> tauto
  · rw [if_neg h1]
    by_cases h2 : up = P ∨ up = G ∨ up = O
    · rw [if_pos h2]
      refine ⟨?_, ?_, ?_⟩ <;> tauto
    · rw [if_neg h2]
      refine ⟨?_, ?_, ?_⟩ <;> tauto

/-- C8. For every ASCII string `s`, `GetEncryptionMode(s)` is WinSCP exactly
when `s` equals "WINSCP" ignoring letter case, is PGP exactly when `s` equals
one of "PGP", "GPG", "OPENPGP" ignoring letter case, and is Unknown, the
empty mode, for every other string; it always returns one of the three
modes. -/
theorem C8_mode_resolution (u : Bytes → Bytes) (s : Bytes) (hascii : ∀ c ∈ s, c.val < 128) :
    (GetEncryptionMode u s = EncryptionModeWinSCP ↔ equalsIgnoringCase s (ascii "WINSCP"))
    ∧ (GetEncryptionMode u s = EncryptionModePGP ↔
        (equalsIgnoringCase s (ascii "PGP") ∨ equalsIgnoringCase s (ascii "GPG") ∨
          equalsIgnoringCase s (ascii "OPENPGP")))
    ∧ ((¬ equalsIgnoringCase s (ascii "WINSCP") ∧ ¬ equalsIgnoringCase s (ascii "PGP") ∧
          ¬ equalsIgnoringCase s (ascii "GPG") ∧ ¬ equalsIgnoringCase s (ascii "OPENPGP")) ↔
        GetEncryptionMode u s = EncryptionModeUnknown)
    ∧ EncryptionModeUnknown = [] := by
  have hW : s.map upperByte = EncryptionModeWinSCP ↔
      equalsIgnoringCase s (ascii "WINSCP") :=
    map_upperByte_eq_iff s (ascii "WINSCP") mode_names_upper.1
  have hP : s.map upperByte = EncryptionModePGP ↔ equalsIgnoringCase s (ascii "PGP") :=
    map_upperByte_eq_iff s (ascii "PGP") mode_names_upper.2.1
  have hG := map_upperByte_eq_iff s (ascii "GPG") mode_names_upper.2.2.1
  have hO := map_upperByte_eq_iff s (ascii "OPENPGP") mode_names_upper.2.2.2
  rw [← hW, ← hP, ← hG, ← hO]
  unfold GetEncryptionMode
  rw [toUpper_ascii u s hascii]
  have e1 : EncryptionModePGP ≠ EncryptionModeWinSCP := by decide
  have e2 : EncryptionModeUnknown ≠ EncryptionModeWinSCP := by decide
  have e3 : EncryptionModeUnknown ≠ EncryptionModePGP := by decide
  have e4 : EncryptionModeWinSCP ≠ ascii "GPG" := by decide
  have e5 : EncryptionModeWinSCP ≠ ascii "OPENPGP" := by decide
  obtain ⟨r1, r2, r3⟩ := switch_three_way EncryptionModeWinSCP EncryptionModePGP
    (ascii "GPG") (ascii "OPENPGP") EncryptionModeUnknown (s.map upperByte) e1 e2 e3 e4 e5
  exact ⟨r1, r2, r3, rfl⟩

set_option maxRecDepth 8000 in
theorem openPgp_is_ascii : ∀ c ∈ ascii "OpenPgp", c.val < 128 := by
  decide

theorem C8_mode_resolution_witness :
    (GetEncryptionMode id (ascii "OpenPgp") = EncryptionModeWinSCP ↔
        equalsIgnoringCase (ascii "OpenPgp") (ascii "WINSCP"))
    ∧ (GetEncryptionMode id (ascii "OpenPgp") = EncryptionModePGP ↔
        (equalsIgnoringCase (ascii "OpenPgp") (ascii "PGP") ∨
          equalsIgnoringCase (ascii "OpenPgp") (ascii "GPG") ∨
          equalsIgnoringCase (ascii "OpenPgp") (ascii "OPENPGP")))
    ∧ ((¬ equalsIgnoringCase (ascii "OpenPgp") (ascii "WINSCP") ∧
          ¬ equalsIgnoringCase (ascii "OpenPgp") (ascii "PGP") ∧
          ¬ equalsIgnoringCase (ascii "OpenPgp") (ascii "GPG") ∧
          ¬ equalsIgnoringCase (ascii "OpenPgp") (ascii "OPENPGP")) ↔
        GetEncryptionMode id (ascii "OpenPgp") = EncryptionModeUnknown)
    ∧ EncryptionModeUnknown = [] :=
  C8_mode_resolution id (ascii "OpenPgp") openPgp_is_ascii

/-! ## C9 -/

/-- C9. With PGP mode, obfuscation enabled and a 16-byte salt delivered by
the random source: `EncryptFilename` returns a key-setup error if and only
if the password padded to a 16-byte boundary has a length outside
{16, 24, 32}; that is the case exactly when the password has 32 bytes or
more; and every password of 0 to 31 bytes yields a token. -/
theorem C9_key_sizing (P : Primitives) (K F salt : Bytes) (hsalt : salt.length = 16) :
    ((∃ e, EncryptFilename P (NewEncryptionManager EncryptionModePGP true K) (.ok salt) F
          = .returned [] (some (.wrap "failed to encrypt filename"
              (.wrap "failed to create AES cipher" e))))
        ↔ ¬ ((padPkcs7 K 16).length = 16 ∨ (padPkcs7 K 16).length = 24 ∨
              (padPkcs7 K 16).length = 32))
    ∧ (¬ ((padPkcs7 K 16).length = 16 ∨ (padPkcs7 K 16).length = 24 ∨
              (padPkcs7 K 16).length = 32) ↔ 32 ≤ K.length)
    ∧ (K.length < 32 →
        ∃ t, EncryptFilename P (NewEncryptionManager EncryptionModePGP true K) (.ok salt) F
          = .returned t none) := by
  have hsize : ¬ ((padPkcs7 K 16).length = 16 ∨ (padPkcs7 K 16).length = 24 ∨
      (padPkcs7 K 16).length = 32) ↔ 32 ≤ K.length := by
    rw [padPkcs7_length]; omega
  have hok : K.length < 32 →
      EncryptFilename P (NewEncryptionManager EncryptionModePGP true K) (.ok salt) F
        = .returned (pgpToken P K salt F) none := by
    intro hK
    rw [EncryptFilename_of_ne_winscp _ _ _ _ pgp_ne_winscp]
    exact encryptFilenamePGP_ok P _ F salt rfl hK hsalt
  refine ⟨?_, hsize, fun hK => ⟨_, hok hK⟩⟩
  rw [hsize]
  constructor
  · rintro ⟨e, he⟩
    by_contra hlt
    rw [hok (by omega)] at he
    injection he with _ herr
    cases herr
  · intro hK
    refine ⟨.keySize (padPkcs7 K 16).length, ?_⟩
    rw [EncryptFilename_of_ne_winscp _ _ _ _ pgp_ne_winscp]
    exact encryptFilenamePGP_keyError P _ F salt rfl hK

theorem C9_key_sizing_witness :
    ((∃ e, EncryptFilename demoPrimitives
            (NewEncryptionManager EncryptionModePGP true (List.replicate 32 (byteOf 107)))
            (.ok (List.replicate 16 (byteOf 7))) (ascii "a")
          = .returned [] (some (.wrap "failed to encrypt filename"
              (.wrap "failed to create AES cipher" e))))
        ↔ ¬ ((padPkcs7 (List.replicate 32 (byteOf 107)) 16).length = 16 ∨
              (padPkcs7 (List.replicate 32 (byteOf 107)) 16).length = 24 ∨
              (padPkcs7 (List.replicate 32 (byteOf 107)) 16).length = 32))
    ∧ (¬ ((padPkcs7 (List.replicate 32 (byteOf 107)) 16).length = 16 ∨
              (padPkcs7 (List.replicate 32 (byteOf 107)) 16).length = 24 ∨
              (padPkcs7 (List.replicate 32 (byteOf 107)) 16).length = 32)
          ↔ 32 ≤ (List.replicate 32 (byteOf 107)).length)
    ∧ ((List.replicate 32 (byteOf 107)).length < 32 →
        ∃ t, EncryptFilename demoPrimitives
            (NewEncryptionManager EncryptionModePGP true (List.replicate 32 (byteOf 107)))
            (.ok (List.replicate 16 (byteOf 7))) (ascii "a")
          = .returned t none) :=
  C9_key_sizing demoPrimitives (List.replicate 32 (byteOf 107)) (ascii "a")
    (List.replicate 16 (byteOf 7)) (by decide)

/-! ## C10 -/

/-- C10, counterexample. For the name "a" under "hunter2": the code returns
the token `pgpToken`, whose decoded payload carries the size header 1 in
clear right after the salt; the layout of the specification has no token
here (its plaintext of 4 + 16 bytes is not a whole number of cipher blocks),
and encrypting header and padded name together gives another string. -/
theorem C10_size_header_is_in_clear :
    EncryptFilename demoPrimitives
        (NewEncryptionManager EncryptionModePGP true (ascii "hunter2"))
        (.ok (List.replicate 16 (byteOf 7))) (ascii "a")
      = .returned (pgpToken demoPrimitives (ascii "hunter2") (List.replicate 16 (byteOf 7))
          (ascii "a")) none
    ∧ some (pgpToken demoPrimitives (ascii "hunter2") (List.replicate 16 (byteOf 7))
          (ascii "a"))
        ≠ specToken demoPrimitives (ascii "hunter2") (List.replicate 16 (byteOf 7)) (ascii "a")
    ∧ (demoPrimitives.base62Decode (trimSuffix
          (pgpToken demoPrimitives (ascii "hunter2") (List.replicate 16 (byteOf 7)) (ascii "a"))
          PgpEncryptedFileExtension)).map (fun payload => (payload.drop 16).take 4)
        = some [1, 0, 0, 0]
    ∧ pgpToken demoPrimitives (ascii "hunter2") (List.replicate 16 (byteOf 7)) (ascii "a")
        ≠ demoPrimitives.base62Encode (List.replicate 16 (byteOf 7) ++
            demoPrimitives.cbcEncrypt (padPkcs7 (ascii "hunter2") 16)
              (List.replicate 16 (byteOf 7))
              (putUint32LE 1 ++ padPkcs7 (ascii "a") aesBlockSize))
          ++ PgpEncryptedFileExtension := by
  decide

/-- C10, amended. For every name, every password shorter than 32 bytes and
every 16-byte salt, the token returned by `EncryptFilename` equals
base62(salt ‖ L ‖ C) followed by ".pgp.enc", where L is the 4-byte
little-endian length of the name (mod 2^32), written in clear, and C is the
AES-CBC encryption, with the salt as IV and the padded password as key, of
the PKCS7-padded name bytes alone: the length prefix is outside the
encrypted plaintext. -/
theorem C10_token_wire_format (P : Primitives) (name K salt : Bytes)
    (hK : K.length < 32) (hsalt : salt.length = 16) :
    EncryptFilename P (NewEncryptionManager EncryptionModePGP true K) (.ok salt) name
      = .returned
          (P.base62Encode (salt ++ (putUint32LE (name.length % 2 ^ 32) ++
              P.cbcEncrypt (padPkcs7 K 16) salt (padPkcs7 name 16)))
            ++ ascii ".pgp.enc") none := by
  rw [EncryptFilename_of_ne_winscp _ _ _ _ pgp_ne_winscp]
  exact encryptFilenamePGP_ok P _ name salt rfl hK hsalt

theorem C10_token_wire_format_witness :
    EncryptFilename demoPrimitives
        (NewEncryptionManager EncryptionModePGP true (ascii "hunter2"))
        (.ok (List.replicate 16 (byteOf 7))) (ascii "secret-report.csv")
      = .returned
          (demoPrimitives.base62Encode (List.replicate 16 (byteOf 7) ++
              (putUint32LE ((ascii "secret-report.csv").length % 2 ^ 32) ++
                demoPrimitives.cbcEncrypt (padPkcs7 (ascii "hunter2") 16)
                  (List.replicate 16 (byteOf 7)) (padPkcs7 (ascii "secret-report.csv") 16)))
            ++ ascii ".pgp.enc") none :=
  C10_token_wire_format demoPrimitives (ascii "secret-report.csv") (ascii "hunter2")
    (List.replicate 16 (byteOf 7)) (by decide) (by decide)

/-! ## C11 -/

theorem isAlphanumeric_demoDigit (n : Nat) : isAlphanumeric (demoDigit n) = true := by
  have h : (demoDigit n).val = 65 + n % 16 := by
    simp only [demoDigit, byteOf]; omega
  have h1 : 65 ≤ 65 + n % 16 := by omega
  have h2 : 65 + n % 16 ≤ 90 := by omega
  simp [isAlphanumeric, h, h2]

theorem demoPrimitives_alphanumeric : demoPrimitives.Alphanumeric where
  alnum := by
    intro b
    induction b with
    | nil => intro c hc; cases hc
    | cons x rest ih =>
      intro c hc
      simp only [demoPrimitives, demoEncode, List.mem_cons] at hc
      rcases hc with rfl | rfl | hc
      · exact isAlphanumeric_demoDigit _
      · exact isAlphanumeric_demoDigit _
      · exact ih c hc
  nonempty := by
    intro b hb
    cases b with
    | nil => exact absurd rfl hb
    | cons x rest => simp [demoPrimitives, demoEncode]

/-- A token returned without error by `encryptFilenamePGP` with obfuscation
enabled is the base62 text of a payload that starts with the salt and the
size header, followed by the extension. -/
theorem encryptFilenamePGP_returned (P : Primitives) (m : EncryptionManager)
    (salt name t : Bytes) (hflag : m.encryptFilename = true)
    (h : encryptFilenamePGP P m (.ok salt) name = .returned t none) :
    ∃ blocks, t = P.base62Encode (salt ++ (putUint32LE (name.length % 2 ^ 32) ++ blocks))
      ++ PgpEncryptedFileExtension := by
  by_cases hpw : m.password.length < 32
  · by_cases hsalt : salt.length = 16
    · rw [encryptFilenamePGP_ok P m name salt hflag hpw hsalt] at h
      injection h with ht _
      exact ⟨_, ht.symm⟩
    · simp [encryptFilenamePGP, hflag, encryptAESCBC, aesNewCipher_pad_ok m.password hpw,
        hsalt, aesBlockSize] at h
  · rw [encryptFilenamePGP_keyError P m name salt hflag (by omega)] at h
    injection h with _ herr
    cases herr

/-- C11. For every name, password and salt for which `EncryptFilename` (PGP
mode, obfuscation enabled) succeeds, the token ends with ".pgp.enc", and the
part before that suffix is non-empty and consists of ASCII letters and digits
only, so that it contains neither '/' nor '.' (the base62 text being
alphanumeric, and empty for the empty input only). -/
theorem C11_path_safe_token (P : Primitives) (hA : P.Alphanumeric) (name K salt t : Bytes)
    (henc : EncryptFilename P (NewEncryptionManager EncryptionModePGP true K) (.ok salt) name
      = .returned t none) :
    List.IsSuffix (ascii ".pgp.enc") t
    ∧ trimSuffix t (ascii ".pgp.enc") ≠ []
    ∧ (∀ c ∈ trimSuffix t (ascii ".pgp.enc"), isAlphanumeric c = true)
    ∧ byteOf 47 ∉ trimSuffix t (ascii ".pgp.enc")
    ∧ byteOf 46 ∉ trimSuffix t (ascii ".pgp.enc") := by
  rw [EncryptFilename_of_ne_winscp _ _ _ _ pgp_ne_winscp] at henc
  obtain ⟨blocks, ht⟩ := encryptFilenamePGP_returned P _ salt name t rfl henc
  have hbody : trimSuffix t (ascii ".pgp.enc")
      = P.base62Encode (salt ++ (putUint32LE (name.length % 2 ^ 32) ++ blocks)) := by
    rw [ht]; exact trimSuffix_append _ _
  have hne : salt ++ (putUint32LE (name.length % 2 ^ 32) ++ blocks) ≠ [] := by
    simp [putUint32LE]
  have hal := hA.alnum (salt ++ (putUint32LE (name.length % 2 ^ 32) ++ blocks))
  rw [hbody]
  refine ⟨?_, hA.nonempty _ hne, hal, ?_, ?_⟩
  · rw [ht]; exact List.suffix_append _ _
  · intro hmem
    have := hal _ hmem
    revert this; decide
  · intro hmem
    have := hal _ hmem
    revert this; decide

theorem C11_path_safe_token_witness :
    List.IsSuffix (ascii ".pgp.enc")
      (pgpToken demoPrimitives (ascii "hunter2") (List.replicate 16 (byteOf 7))
        (ascii "secret-report.csv"))
    ∧ trimSuffix (pgpToken demoPrimitives (ascii "hunter2") (List.replicate 16 (byteOf 7))
        (ascii "secret-report.csv")) (ascii ".pgp.enc") ≠ []
    ∧ (∀ c ∈ trimSuffix (pgpToken demoPrimitives (ascii "hunter2")
          (List.replicate 16 (byteOf 7)) (ascii "secret-report.csv")) (ascii ".pgp.enc"),
        isAlphanumeric c = true)
    ∧ byteOf 47 ∉ trimSuffix (pgpToken demoPrimitives (ascii "hunter2")
        (List.replicate 16 (byteOf 7)) (ascii "secret-report.csv")) (ascii ".pgp.enc")
    ∧ byteOf 46 ∉ trimSuffix (pgpToken demoPrimitives (ascii "hunter2")
        (List.replicate 16 (byteOf 7)) (ascii "secret-report.csv")) (ascii ".pgp.enc") :=
  C11_path_safe_token demoPrimitives demoPrimitives_alphanumeric (ascii "secret-report.csv")
    (ascii "hunter2") (List.replicate 16 (byteOf 7)) _ (by decide)

/-! ## C12 -/

/-- C12. For every token whose body, after stripping the ".pgp.enc" suffix,
base62-decodes to fewer than 16 bytes, `DecryptFilename` (PGP mode,
obfuscation enabled, any password) returns an error and the empty string;
it does not panic. -/
theorem C12_short_token_rejected (P : Primitives) (K t payload : Bytes)
    (hdec : P.base62Decode (trimSuffix t (ascii ".pgp.enc")) = some payload)
    (hshort : payload.length < 16) :
    DecryptFilename P (NewEncryptionManager EncryptionModePGP true K) t
      = .returned [] (some (.msg "failed to extract salt from filename")) := by
  rw [DecryptFilename_of_ne_winscp _ _ _ pgp_ne_winscp]
  have hdec' : P.base62Decode (trimSuffix t PgpEncryptedFileExtension) = some payload := hdec
  simp [decryptFilenamePGP, NewEncryptionManager, hdec', aesSaltLen, hshort]

theorem C12_short_token_rejected_witness :
    DecryptFilename demoPrimitives
        (NewEncryptionManager EncryptionModePGP true (ascii "hunter2"))
        (demoEncode (List.replicate 15 (byteOf 9)) ++ ascii ".pgp.enc")
      = .returned [] (some (.msg "failed to extract salt from filename")) :=
  C12_short_token_rejected demoPrimitives (ascii "hunter2")
    (demoEncode (List.replicate 15 (byteOf 9)) ++ ascii ".pgp.enc")
    (List.replicate 15 (byteOf 9)) (by decide) (by decide)

/-! ## C13 -/

/-- With a valid key, a payload of at least 20 bytes whose part after salt
and size header is not a whole number of blocks makes `CryptBlocks` panic;
no error value is returned. -/
theorem decryptFilenamePGP_misaligned (P : Primitives) (m : EncryptionManager)
    (t payload : Bytes) (hflag : m.encryptFilename = true) (hpw : m.password.length < 32)
    (hdec : P.base62Decode (trimSuffix t PgpEncryptedFileExtension) = some payload)
    (hlen : 20 ≤ payload.length) (hmis : (payload.length - 20) % 16 ≠ 0) :
    decryptFilenamePGP P m t = .panicked "crypto/cipher: input not full blocks" := by
  have h1 : ¬ payload.length < 16 := by omega
  have h2 : (payload.take 16).length = 16 := by rw [List.length_take]; omega
  have h3 : ¬ (payload.drop 16).length < 4 := by rw [List.length_drop]; omega
  have h4 : ((payload.drop 16).drop 4).length % 16 ≠ 0 := by
    rw [List.length_drop, List.length_drop]
    have : payload.length - 16 - 4 = payload.length - 20 := by omega
    rw [this]; exact hmis
  simp only [decryptFilenamePGP, hflag, hdec, aesSaltLen, decryptAESCBC,
    aesNewCipher_pad_ok m.password hpw, cryptBlocks, aesBlockSize, h1, h2, h3, h4, ne_eq,
    not_true_eq_false, not_false_eq_true, if_true, if_false, Bool.not_true, Bool.false_eq_true]

/-- With a valid key, a payload of 16 to 19 bytes makes the slicing of the
size header panic. -/
theorem decryptFilenamePGP_no_header (P : Primitives) (m : EncryptionManager)
    (t payload : Bytes) (hflag : m.encryptFilename = true) (hpw : m.password.length < 32)
    (hdec : P.base62Decode (trimSuffix t PgpEncryptedFileExtension) = some payload)
    (hlen : 16 ≤ payload.length) (hshort : payload.length < 20) :
    decryptFilenamePGP P m t = .panicked "slice bounds out of range" := by
  have h1 : ¬ payload.length < 16 := by omega
  have h2 : (payload.take 16).length = 16 := by rw [List.length_take]; omega
  have h3 : (payload.drop 16).length < 4 := by rw [List.length_drop]; omega
  simp only [decryptFilenamePGP, hflag, hdec, aesSaltLen, decryptAESCBC,
    aesNewCipher_pad_ok m.password hpw, aesBlockSize, h1, h2, h3, ne_eq,
    not_true_eq_false, if_true, if_false, Bool.not_true, Bool.false_eq_true]

/-- C13, the code at the failing input. The token is the text of 25 bytes:
16 bytes of salt, the size header 1, and 5 further bytes. What follows the
salt is not a whole number of cipher blocks, with or without the header.
`DecryptFilename` under "hunter2" does not return an error: it panics in
`CryptBlocks`. -/
theorem C13_misaligned_ciphertext_panics :
    demoPrimitives.base62Decode (trimSuffix
        (demoEncode (List.replicate 16 (byteOf 7) ++ putUint32LE 1 ++
          List.replicate 5 (byteOf 9)) ++ ascii ".pgp.enc") (ascii ".pgp.enc"))
      = some (List.replicate 16 (byteOf 7) ++ putUint32LE 1 ++ List.replicate 5 (byteOf 9))
    ∧ DecryptFilename demoPrimitives
        (NewEncryptionManager EncryptionModePGP true (ascii "hunter2"))
        (demoEncode (List.replicate 16 (byteOf 7) ++ putUint32LE 1 ++
          List.replicate 5 (byteOf 9)) ++ ascii ".pgp.enc")
      = .panicked "crypto/cipher: input not full blocks" := by
  decide

/-! ## C14 -/

/-- With a valid key, an aligned payload whose size header declares more
bytes than were decrypted makes the final slicing panic. -/
theorem decryptFilenamePGP_header_too_large (P : Primitives) (m : EncryptionManager)
    (t payload : Bytes) (hflag : m.encryptFilename = true) (hpw : m.password.length < 32)
    (hdec : P.base62Decode (trimSuffix t PgpEncryptedFileExtension) = some payload)
    (hlen : 20 ≤ payload.length) (hal : (payload.length - 20) % 16 = 0)
    (hbig : payload.length - 20 < uint32LE ((payload.drop 16).take 4)) :
    decryptFilenamePGP P m t = .panicked "slice bounds out of range" := by
  have h1 : ¬ payload.length < 16 := by omega
  have h2 : (payload.take 16).length = 16 := by rw [List.length_take]; omega
  have h3 : ¬ (payload.drop 16).length < 4 := by rw [List.length_drop]; omega
  have h5 : ((payload.drop 16).drop 4).length = payload.length - 20 := by
    rw [List.length_drop, List.length_drop]; omega
  have h4 : ((payload.drop 16).drop 4).length % 16 = 0 := by rw [h5]; exact hal
  have h6 : uint32LE ((payload.drop 16).take 4) > ((payload.drop 16).drop 4).length := by
    rw [h5]; exact hbig
  simp only [decryptFilenamePGP, hflag, hdec, aesSaltLen, decryptAESCBC,
    aesNewCipher_pad_ok m.password hpw, cryptBlocks, aesBlockSize, h1, h2, h3, h4, h6, ne_eq,
    not_true_eq_false, not_false_eq_true, if_true, if_false, Bool.not_true, Bool.false_eq_true]

/-- C14, the code at the failing input. The token is the text of 36 bytes:
16 bytes of salt, the size header 17, and one cipher block of 16 bytes. The
declared length 17 exceeds the 16 decrypted bytes. `DecryptFilename` under
"hunter2" does not return an error: it panics when slicing the result. With
the header 16 the same payload decrypts to 16 bytes. -/
theorem C14_tampered_length_panics :
    DecryptFilename demoPrimitives
        (NewEncryptionManager EncryptionModePGP true (ascii "hunter2"))
        (demoEncode (List.replicate 16 (byteOf 7) ++ putUint32LE 17 ++
          List.replicate 16 (byteOf 9)) ++ ascii ".pgp.enc")
      = .panicked "slice bounds out of range"
    ∧ ∃ name, name.length = 16 ∧ DecryptFilename demoPrimitives
        (NewEncryptionManager EncryptionModePGP true (ascii "hunter2"))
        (demoEncode (List.replicate 16 (byteOf 7) ++ putUint32LE 16 ++
          List.replicate 16 (byteOf 9)) ++ ascii ".pgp.enc")
      = .returned name none := by
  refine ⟨by decide, List.replicate 16 (byteOf 128), by decide, by decide⟩

/-! ## C15 -/

theorem promptCalls_failed (m : EncryptionManager) (n : Nat) :
    promptCalls m n true = List.replicate n ([], some (.msg "decryption failed")) := by
  induction n with
  | zero => rfl
  | succ k ih => simp [promptCalls, prompt, ih, List.replicate_succ]

/-- The key search of the library ends within two invocations of the prompt
of `decryptFilePGP`. -/
theorem findKey_prompt_total (pgp : OpenPGP) (m : EncryptionManager) (src : Bytes)
    (fuel : Nat) :
    findKey pgp src (prompt m) (fuel + 2) false
      = if pgp.passphraseOk src m.password then some (.ok m.password)
        else some (.error (.msg "decryption failed")) := by
  by_cases h : pgp.passphraseOk src m.password = true
  · simp [findKey, prompt, h]
  · simp [findKey, prompt, h]

/-- C15. Within one `DecryptFile` call the captured variable `failed` starts
as false, and for every number of invocations of the passphrase callback the
first invocation returns the configured password with no error and every
later invocation returns an error and no password; the key search of the
library therefore ends at the second invocation at the latest. -/
theorem C15_single_attempt_passphrase (pgp : OpenPGP) (m : EncryptionManager) (src : Bytes)
    (n fuel : Nat) :
    promptCalls m (n + 1) false
      = (m.password, none) :: List.replicate n ([], some (.msg "decryption failed"))
    ∧ ((promptCalls m (n + 1) false).filter (fun r => r.2.isNone)).length = 1
    ∧ findKey pgp src (prompt m) (fuel + 2) false ≠ none := by
  have hcalls : promptCalls m (n + 1) false
      = (m.password, none) :: List.replicate n ([], some (.msg "decryption failed")) := by
    simp [promptCalls, prompt, promptCalls_failed]
  refine ⟨hcalls, ?_, ?_⟩
  · rw [hcalls]
    simp [List.filter_cons, List.filter_replicate]
  · rw [findKey_prompt_total]
    split <;> simp

/-! ## C19 -/

/-- C19. For every byte string `d` and every block size `b` with
1 <= b <= 255, `padPkcs7(d, b)` is `d` followed by `n` copies of the byte
`n`, where n = b - (len(d) mod b); 1 <= n <= b; the length of the result is
a multiple of `b` strictly greater than len(d); and an input whose length
is a multiple of `b` gains one full block. -/
theorem C19_pkcs7_padding (d : Bytes) (b : Nat) (h1 : 1 ≤ b) (h2 : b ≤ 255) :
    padPkcs7 d b = d ++ List.replicate (b - d.length % b) (byteOf (b - d.length % b))
    ∧ (byteOf (b - d.length % b)).val = b - d.length % b
    ∧ 1 ≤ b - d.length % b
    ∧ b - d.length % b ≤ b
    ∧ (padPkcs7 d b).length % b = 0
    ∧ d.length < (padPkcs7 d b).length
    ∧ (d.length % b = 0 → (padPkcs7 d b).length = d.length + b) := by
  have hmod : d.length % b < b := Nat.mod_lt _ (by omega)
  have hlen : (padPkcs7 d b).length = d.length + (b - d.length % b) := by
    simp [padPkcs7]
  refine ⟨rfl, ?_, by omega, by omega, ?_, by omega, ?_⟩
  · simp only [byteOf]; omega
  · rw [hlen]
    have hdiv := Nat.div_add_mod d.length b
    have : d.length + (b - d.length % b) = b * (d.length / b + 1) := by
      rw [Nat.mul_add, Nat.mul_one]; omega
    rw [this]; exact Nat.mul_mod_right _ _
  · intro h0
    rw [hlen, h0]; rfl

/-- A 16-byte password becomes a 32-byte key. -/
theorem C19_pkcs7_padding_witness :
    padPkcs7 (List.replicate 16 (byteOf 107)) 16
      = List.replicate 16 (byteOf 107) ++
          List.replicate (16 - (List.replicate 16 (byteOf 107)).length % 16)
            (byteOf (16 - (List.replicate 16 (byteOf 107)).length % 16))
    ∧ (byteOf (16 - (List.replicate 16 (byteOf 107)).length % 16)).val
        = 16 - (List.replicate 16 (byteOf 107)).length % 16
    ∧ 1 ≤ 16 - (List.replicate 16 (byteOf 107)).length % 16
    ∧ 16 - (List.replicate 16 (byteOf 107)).length % 16 ≤ 16
    ∧ (padPkcs7 (List.replicate 16 (byteOf 107)) 16).length % 16 = 0
    ∧ (List.replicate 16 (byteOf 107)).length
        < (padPkcs7 (List.replicate 16 (byteOf 107)) 16).length
    ∧ ((List.replicate 16 (byteOf 107)).length % 16 = 0 →
        (padPkcs7 (List.replicate 16 (byteOf 107)) 16).length
          = (List.replicate 16 (byteOf 107)).length + 16) :=
  C19_pkcs7_padding (List.replicate 16 (byteOf 107)) 16 (by decide) (by decide)

/-! ## C20 -/

theorem foldl_maxTime (rest : List IRODSReplica) (start : Time) (seen : List IRODSReplica)
    (hin : ∃ r ∈ seen, r.ModifyTime = start)
    (hmax : ∀ r ∈ seen, r.ModifyTime.After start = false) :
    (∃ r ∈ seen ++ rest, r.ModifyTime = rest.foldl
        (fun maxTime t => if t.ModifyTime.After maxTime then t.ModifyTime else maxTime) start)
    ∧ ∀ r ∈ seen ++ rest, r.ModifyTime.After (rest.foldl
        (fun maxTime t => if t.ModifyTime.After maxTime then t.ModifyTime else maxTime) start)
          = false := by
  induction rest generalizing start seen with
  | nil => simpa using ⟨hin, hmax⟩
  | cons x xs ih =>
    have hstep := ih (if x.ModifyTime.After start then x.ModifyTime else start) (seen ++ [x])
      (by
        by_cases hx : x.ModifyTime.After start = true
        · exact ⟨x, by simp, by simp [hx]⟩
        · obtain ⟨r, hr, hrt⟩ := hin
          exact ⟨r, by simp [hr], by simp [hx, hrt]⟩)
      (by
        intro r hr
        rw [List.mem_append, List.mem_singleton] at hr
        by_cases hx : x.ModifyTime.After start = true
        · simp only [hx, if_true]
          rcases hr with hr | rfl
          · have := hmax r hr
            simp only [Time.After, decide_eq_true_eq, decide_eq_false_iff_not, not_lt] at *
            omega
          · simp [Time.After]
        · simp only [hx, if_false, Bool.false_eq_true]
          rcases hr with hr | rfl
          · exact hmax r hr
          · simpa using hx)
    simpa [List.foldl_cons, List.append_assoc] using hstep

/-- C20. For every data object with at least one replica,
`getDataObjectModifyTime` returns a time that is the ModifyTime of one of
its replicas and that no replica's ModifyTime is after. -/
theorem C20_modify_time_is_latest (object : IRODSDataObject) (h : object.Replicas ≠ []) :
    ∃ t, getDataObjectModifyTime object = .ok t
      ∧ (∃ r ∈ object.Replicas, r.ModifyTime = t)
      ∧ ∀ r ∈ object.Replicas, r.ModifyTime.After t = false := by
  unfold getDataObjectModifyTime
  cases hrep : object.Replicas with
  | nil => exact absurd hrep h
  | cons first rest =>
    refine ⟨_, rfl, ?_⟩
    have := foldl_maxTime rest first.ModifyTime [first] ⟨first, by simp, rfl⟩
      (by intro r hr; simp at hr; subst hr; simp [Time.After])
    simpa using this

theorem C20_modify_time_is_latest_witness :
    ∃ t, getDataObjectModifyTime
        ⟨ascii "x", 3, [⟨⟨5, 0⟩⟩, ⟨⟨9, 1⟩⟩, ⟨⟨9, 2⟩⟩, ⟨⟨7, 0⟩⟩]⟩ = .ok t
      ∧ (∃ r ∈ ([⟨⟨5, 0⟩⟩, ⟨⟨9, 1⟩⟩, ⟨⟨9, 2⟩⟩, ⟨⟨7, 0⟩⟩] : List IRODSReplica),
          r.ModifyTime = t)
      ∧ ∀ r ∈ ([⟨⟨5, 0⟩⟩, ⟨⟨9, 1⟩⟩, ⟨⟨9, 2⟩⟩, ⟨⟨7, 0⟩⟩] : List IRODSReplica),
          r.ModifyTime.After t = false :=
  C20_modify_time_is_latest ⟨ascii "x", 3, [⟨⟨5, 0⟩⟩, ⟨⟨9, 1⟩⟩, ⟨⟨9, 2⟩⟩, ⟨⟨7, 0⟩⟩]⟩
    (by decide)

/-! ## Lemmas on the file system -/

theorem lookup_cons_ne (a k : Path) (v : Bytes) (es : List (Path × Bytes)) (h : a ≠ k) :
    List.lookup a ((k, v) :: es) = List.lookup a es := by
  have hq : (a == k) = false := by simpa using h
  rw [List.lookup_cons, hq]

theorem lookup_filter_ne (l : List (Path × Bytes)) (p q : Path) (h : q ≠ p) :
    List.lookup q (l.filter (fun e => decide (e.1 ≠ p))) = List.lookup q l := by
  induction l with
  | nil => rfl
  | cons e rest ih =>
    obtain ⟨k, v⟩ := e
    by_cases hk : k = p
    · have hf : ¬ ((fun e : Path × Bytes => decide (e.1 ≠ p)) (k, v) = true) := by simp [hk]
      rw [@List.filter_cons_of_neg _ (fun e : Path × Bytes => decide (e.1 ≠ p)) (k, v) rest hf,
        lookup_cons_ne q k v rest (by rw [hk]; exact h), ih]
    · have hf : (fun e : Path × Bytes => decide (e.1 ≠ p)) (k, v) = true := by simp [hk]
      rw [@List.filter_cons_of_pos _ (fun e : Path × Bytes => decide (e.1 ≠ p)) (k, v) rest hf]
      by_cases hq : q = k
      · rw [hq, List.lookup_cons_self, List.lookup_cons_self]
      · rw [lookup_cons_ne q k v _ hq, lookup_cons_ne q k v _ hq, ih]

theorem lookup_map_append (l : List (Path × Bytes)) (p : Path) (d : Bytes) :
    List.lookup p (l.map (fun e => if e.1 = p then (e.1, e.2 ++ d) else e))
      = (List.lookup p l).map (fun c => c ++ d) := by
  induction l with
  | nil => rfl
  | cons e rest ih =>
    obtain ⟨k, v⟩ := e
    rw [List.map_cons]
    by_cases hk : k = p
    · have hhead : (if (k, v).1 = p then ((k, v).1, (k, v).2 ++ d) else (k, v))
          = (p, v ++ d) := by rw [if_pos hk]; simp [hk]
      rw [hhead, List.lookup_cons_self, hk, List.lookup_cons_self]
      rfl
    · have hhead : (if (k, v).1 = p then ((k, v).1, (k, v).2 ++ d) else (k, v))
          = (k, v) := if_neg hk
      rw [hhead, lookup_cons_ne p k v _ (Ne.symm hk), lookup_cons_ne p k v _ (Ne.symm hk), ih]

theorem lookup_map_append_ne (l : List (Path × Bytes)) (p q : Path) (d : Bytes) (h : q ≠ p) :
    List.lookup q (l.map (fun e => if e.1 = p then (e.1, e.2 ++ d) else e))
      = List.lookup q l := by
  induction l with
  | nil => rfl
  | cons e rest ih =>
    obtain ⟨k, v⟩ := e
    rw [List.map_cons]
    by_cases hk : k = p
    · have hhead : (if (k, v).1 = p then ((k, v).1, (k, v).2 ++ d) else (k, v))
          = (p, v ++ d) := by rw [if_pos hk]; simp [hk]
      rw [hhead, lookup_cons_ne q p _ _ h, hk, lookup_cons_ne q p _ _ h, ih]
    · have hhead : (if (k, v).1 = p then ((k, v).1, (k, v).2 ++ d) else (k, v))
          = (k, v) := if_neg hk
      rw [hhead]
      by_cases hq : q = k
      · rw [hq, List.lookup_cons_self, List.lookup_cons_self]
      · rw [lookup_cons_ne q k v _ hq, lookup_cons_ne q k v _ hq, ih]

theorem read_log (fs : FileSystem) (e : FsEvent) (p : Path) :
    (fs.log e).read p = fs.read p := rfl

theorem read_truncate_self (fs : FileSystem) (p : Path) :
    (fs.truncate p).read p = some [] := by
  simp [FileSystem.read, FileSystem.truncate, List.lookup]

theorem read_truncate_ne (fs : FileSystem) (p q : Path) (h : q ≠ p) :
    (fs.truncate p).read q = fs.read q := by
  have hq : (q == p) = false := by simpa using h
  simp only [FileSystem.read, FileSystem.truncate, List.lookup, hq]
  exact lookup_filter_ne fs.files p q h

theorem read_append_self (fs : FileSystem) (p : Path) (d : Bytes) :
    (fs.append p d).read p = (fs.read p).map (fun c => c ++ d) :=
  lookup_map_append fs.files p d

theorem read_append_ne (fs : FileSystem) (p q : Path) (d : Bytes) (h : q ≠ p) :
    (fs.append p d).read q = fs.read q :=
  lookup_map_append_ne fs.files p q d h

/-! ## C16 -/

theorem encryptFilePGP_noFaults (pgp : OpenPGP) (m : EncryptionManager) (src enc : Path)
    (fs : FileSystem) (content : Bytes) (hsrc : fs.read src = some content)
    (hne : src ≠ enc) :
    (encryptFilePGP pgp noFaults m src enc fs).2 = none
    ∧ (encryptFilePGP pgp noFaults m src enc fs).1.read enc
        = some (pgp.message m.password content)
    ∧ ∀ q, q ≠ enc → (encryptFilePGP pgp noFaults m src enc fs).1.read q = fs.read q := by
  have hsrc2 : ((fs.log (.opened src)).truncate enc).read src = some content := by
    rw [read_truncate_ne _ _ _ hne, read_log, hsrc]
  simp only [encryptFilePGP, hsrc, noFaults, hsrc2, Option.getD_some]
  refine ⟨trivial, ?_, ?_⟩
  · simp only [read_log, read_append_self, read_truncate_self, Option.map_some',
      List.nil_append, OpenPGP.message, List.append_assoc]
  · intro q hq
    simp only [read_log, read_append_ne _ _ _ _ hq, read_truncate_ne _ _ _ hq]

theorem decryptFilePGP_noFaults (pgp : OpenPGP) (hpgp : pgp.Lawful) (m : EncryptionManager)
    (enc dst : Path) (fs : FileSystem) (content : Bytes) (fuel : Nat)
    (henc : fs.read enc = some (pgp.message m.password content)) (hne : enc ≠ dst) :
    ∃ fs', decryptFilePGP pgp noFaults (fuel + 1) m enc dst fs = some (fs', none)
      ∧ fs'.read dst = some content := by
  have henc2 : ((fs.log (.opened enc)).truncate dst).read enc
      = some (pgp.message m.password content) := by
    rw [read_truncate_ne _ _ _ hne, read_log, henc]
  simp only [decryptFilePGP, henc, noFaults, henc2, Option.getD_some, readMessage,
    hpgp.parse_ok, findKey, prompt, hpgp.passphrase_ok, hpgp.plaintext_ok, if_true,
    Bool.false_eq_true, if_false]
  refine ⟨_, rfl, ?_⟩
  simp only [read_log, read_append_self, read_truncate_self, Option.map_some',
    List.nil_append]

theorem EncryptFile_of_ne_winscp (pgp : OpenPGP) (faults : Faults) (m : EncryptionManager)
    (source target : Path) (fs : FileSystem) (h : m.mode ≠ EncryptionModeWinSCP) :
    EncryptFile pgp faults m source target fs
      = encryptFilePGP pgp faults m source target fs := by
  simp [EncryptFile, h]

/-- C16. For every password and every content (of any size, 0 bytes and 1
byte included), with no input/output failure: `EncryptFile` of a file
holding the content, then `DecryptFile` of the result under the same
password (PGP mode), both succeed and leave a target file whose bytes are
the content (the container library opening what it wrote). -/
theorem C16_file_roundtrip (pgp : OpenPGP) (hpgp : pgp.Lawful) (flag : Bool)
    (K content : Bytes) (src enc dst : Path) (fs : FileSystem) (fuel : Nat)
    (hsrc : fs.read src = some content) (h1 : src ≠ enc) (h2 : enc ≠ dst) :
    (EncryptFile pgp noFaults (NewEncryptionManager EncryptionModePGP flag K) src enc fs).2
      = none
    ∧ ∃ fs', DecryptFile pgp noFaults (fuel + 1)
          (NewEncryptionManager EncryptionModePGP flag K) enc dst
          (EncryptFile pgp noFaults (NewEncryptionManager EncryptionModePGP flag K)
            src enc fs).1
        = some (fs', none)
      ∧ fs'.read dst = some content := by
  have hE : EncryptFile pgp noFaults (NewEncryptionManager EncryptionModePGP flag K) src enc fs
      = encryptFilePGP pgp noFaults (NewEncryptionManager EncryptionModePGP flag K)
          src enc fs :=
    EncryptFile_of_ne_winscp _ _ _ _ _ _ pgp_ne_winscp
  rw [hE, DecryptFile_of_ne_winscp _ _ _ _ _ _ _ pgp_ne_winscp]
  obtain ⟨he1, he2, _⟩ := encryptFilePGP_noFaults pgp
    (NewEncryptionManager EncryptionModePGP flag K) src enc fs content hsrc h1
  exact ⟨he1, decryptFilePGP_noFaults pgp hpgp _ enc dst _ content fuel he2 h2⟩

theorem demoOpenPGP_lawful : demoOpenPGP.Lawful where
  parse_ok := by
    intro pw c
    simp [demoOpenPGP, OpenPGP.message]
  passphrase_ok := by
    intro pw c
    simp only [demoOpenPGP, OpenPGP.message]
    rw [List.isPrefixOf_iff_prefix]
    exact List.prefix_append _ _
  plaintext_ok := by
    intro pw c
    have hdrop : ((byteOf pw.length :: pw) ++
        (c.map (fun x => x + pw.sum) ++ [byteOf 255])).drop (pw.length + 1)
        = c.map (fun x => x + pw.sum) ++ [byteOf 255] := by
      have : (byteOf pw.length :: pw).length = pw.length + 1 := by simp
      rw [← this, List.drop_left]
    simp only [demoOpenPGP, OpenPGP.message, hdrop]
    simp [List.getLast?_append, List.dropLast_append, List.map_map, Function.comp_def]

theorem C16_file_roundtrip_witness :
    (EncryptFile demoOpenPGP noFaults
        (NewEncryptionManager EncryptionModePGP true (ascii "hunter2"))
        (ascii "a") (ascii "b") demoFiles).2 = none
    ∧ ∃ fs', DecryptFile demoOpenPGP noFaults (1 + 1)
          (NewEncryptionManager EncryptionModePGP true (ascii "hunter2"))
          (ascii "b") (ascii "c")
          (EncryptFile demoOpenPGP noFaults
            (NewEncryptionManager EncryptionModePGP true (ascii "hunter2"))
            (ascii "a") (ascii "b") demoFiles).1
        = some (fs', none)
      ∧ fs'.read (ascii "c") = some (ascii "hello") :=
  C16_file_roundtrip demoOpenPGP demoOpenPGP_lawful true (ascii "hunter2") (ascii "hello")
    (ascii "a") (ascii "b") (ascii "c") demoFiles 1 (by decide) (by decide) (by decide)

/-! ## C17 -/

theorem isSome_read_log (fs : FileSystem) (e : FsEvent) (p : Path)
    (h : (fs.read p).isSome = true) : ((fs.log e).read p).isSome = true := h

theorem isSome_read_append (fs : FileSystem) (p q : Path) (d : Bytes)
    (h : (fs.read p).isSome = true) : ((fs.append q d).read p).isSome = true := by
  by_cases hpq : p = q
  · subst hpq
    rw [read_append_self]
    cases hr : fs.read p with
    | none => rw [hr] at h; cases h
    | some c => rfl
  · rw [read_append_ne _ _ _ _ hpq]; exact h

theorem isSome_read_truncate (fs : FileSystem) (p : Path) :
    ((fs.truncate p).read p).isSome = true := by
  rw [read_truncate_self]; rfl

/-- When the encrypting writer cannot be created, `encryptFilePGP` returns
the error and the target is left empty. -/
theorem encryptFilePGP_newWriter_fails (pgp : OpenPGP) (faults : Faults)
    (m : EncryptionManager) (source target : Path) (fs : FileSystem) (content : Bytes)
    (e : GoError) (hsrc : fs.read source = some content) (hopen : faults.openTarget = none)
    (hnw : faults.newWriter = some e) :
    (encryptFilePGP pgp faults m source target fs).2
      = some (.wrapf "failed to create a encrypt writer for" target e)
    ∧ (encryptFilePGP pgp faults m source target fs).1.read target = some [] := by
  simp only [encryptFilePGP, hsrc, hopen, hnw]
  refine ⟨trivial, ?_⟩
  simp only [read_log, read_truncate_self]

/-- When the copy fails after `n` plaintext bytes, `encryptFilePGP` returns
the error, and the target holds the header, the body of those bytes, and
the trailer that the deferred `writeHandle.Close()` writes unless it fails. -/
theorem encryptFilePGP_copy_fails (pgp : OpenPGP) (faults : Faults)
    (m : EncryptionManager) (source target : Path) (fs : FileSystem) (content : Bytes)
    (n : Nat) (e : GoError) (hsrc : fs.read source = some content)
    (hopen : faults.openTarget = none) (hnw : faults.newWriter = none)
    (hcopy : faults.copy = some (n, e)) (hne : source ≠ target) :
    (encryptFilePGP pgp faults m source target fs).2
      = some (.wrap "failed to encrypt data" e)
    ∧ (encryptFilePGP pgp faults m source target fs).1.read target
      = some (pgp.header m.password ++ (pgp.body m.password (content.take n) ++
          (match faults.closeWriter with
            | some _ => []
            | none => pgp.trailer m.password (content.take n)))) := by
  have hsrc2 : ((fs.log (.opened source)).truncate target).read source = some content := by
    rw [read_truncate_ne _ _ _ hne, read_log, hsrc]
  cases hcw : faults.closeWriter with
  | some e' =>
    simp only [encryptFilePGP, hsrc, hopen, hnw, hcopy, hsrc2, hcw, Option.getD_some]
    refine ⟨trivial, ?_⟩
    simp only [read_log, read_append_self, read_truncate_self, Option.map_some',
      List.nil_append, List.append_nil]
  | none =>
    simp only [encryptFilePGP, hsrc, hopen, hnw, hcopy, hsrc2, hcw, Option.getD_some]
    refine ⟨trivial, ?_⟩
    simp only [read_log, read_append_self, read_truncate_self, Option.map_some',
      List.nil_append, List.append_assoc]

/-- When the message cannot be opened (wrong password, damaged header),
`decryptFilePGP` returns the error and the target is left empty. -/
theorem decryptFilePGP_open_fails (pgp : OpenPGP) (faults : Faults) (fuel : Nat)
    (m : EncryptionManager) (source target : Path) (fs : FileSystem) (content : Bytes)
    (e : GoError) (hsrc : fs.read source = some content) (hopen : faults.openTarget = none)
    (hne : source ≠ target)
    (hmsg : readMessage pgp content (prompt m) fuel false = some (.error e)) :
    ∃ fs', decryptFilePGP pgp faults fuel m source target fs
        = some (fs', some (.wrapf "failed to decrypt for" source e))
      ∧ fs'.read target = some [] := by
  have hsrc2 : ((fs.log (.opened source)).truncate target).read source = some content := by
    rw [read_truncate_ne _ _ _ hne, read_log, hsrc]
  simp only [decryptFilePGP, hsrc, hopen, hsrc2, Option.getD_some, hmsg]
  refine ⟨_, rfl, ?_⟩
  simp only [read_log, read_truncate_self]

/-- When the copy to the target fails after `n` bytes, `decryptFilePGP`
returns the error and the target holds the first `n` delivered bytes. -/
theorem decryptFilePGP_copy_fails (pgp : OpenPGP) (faults : Faults) (fuel : Nat)
    (m : EncryptionManager) (source target : Path) (fs : FileSystem)
    (content pass : Bytes) (n : Nat) (e : GoError) (hsrc : fs.read source = some content)
    (hopen : faults.openTarget = none) (hne : source ≠ target)
    (hmsg : readMessage pgp content (prompt m) fuel false = some (.ok pass))
    (hcopy : faults.copy = some (n, e)) :
    ∃ fs', decryptFilePGP pgp faults fuel m source target fs
        = some (fs', some (.wrap "failed to decrypt data" e))
      ∧ fs'.read target = some ((pgp.plaintext content pass).1.take n) := by
  have hsrc2 : ((fs.log (.opened source)).truncate target).read source = some content := by
    rw [read_truncate_ne _ _ _ hne, read_log, hsrc]
  simp only [decryptFilePGP, hsrc, hopen, hsrc2, Option.getD_some, hmsg, hcopy]
  refine ⟨_, rfl, ?_⟩
  simp only [read_log, read_append_self, read_truncate_self, Option.map_some',
    List.nil_append]

/-- When reading the message body ends in an error, `decryptFilePGP` returns
the error and the target holds the bytes delivered before it. -/
theorem decryptFilePGP_read_fails (pgp : OpenPGP) (faults : Faults) (fuel : Nat)
    (m : EncryptionManager) (source target : Path) (fs : FileSystem)
    (content pass : Bytes) (e : GoError) (hsrc : fs.read source = some content)
    (hopen : faults.openTarget = none) (hne : source ≠ target)
    (hmsg : readMessage pgp content (prompt m) fuel false = some (.ok pass))
    (hcopy : faults.copy = none) (hread : (pgp.plaintext content pass).2 = some e) :
    ∃ fs', decryptFilePGP pgp faults fuel m source target fs
        = some (fs', some (.wrap "failed to decrypt data" e))
      ∧ fs'.read target = some (pgp.plaintext content pass).1 := by
  have hsrc2 : ((fs.log (.opened source)).truncate target).read source = some content := by
    rw [read_truncate_ne _ _ _ hne, read_log, hsrc]
  simp only [decryptFilePGP, hsrc, hopen, hsrc2, Option.getD_some, hmsg, hcopy, hread]
  refine ⟨_, rfl, ?_⟩
  simp only [read_log, read_append_self, read_truncate_self, Option.map_some',
    List.nil_append]

/-- C17, counterexample. The file "b" is the container of "hello" under
"hunter2", and no file "c" exists. `DecryptFile` from "b" to "c" with the
wrong password "wrongpass" returns an error, and on return "c" is in place
as an ordinary empty file: nothing deleted it. -/
theorem C17_failed_decrypt_leaves_target :
    (EncryptFile demoOpenPGP noFaults
        (NewEncryptionManager EncryptionModePGP true (ascii "hunter2"))
        (ascii "a") (ascii "b") demoFiles).1.read (ascii "c") = none
    ∧ (DecryptFile demoOpenPGP noFaults 2
        (NewEncryptionManager EncryptionModePGP true (ascii "wrongpass"))
        (ascii "b") (ascii "c")
        (EncryptFile demoOpenPGP noFaults
          (NewEncryptionManager EncryptionModePGP true (ascii "hunter2"))
          (ascii "a") (ascii "b") demoFiles).1).map
          (fun r => (r.2, r.1.read (ascii "c")))
      = some (some (.wrapf "failed to decrypt for" (ascii "b") (.msg "decryption failed")),
          some []) := by
  decide

/-- C17, amended. Whenever `EncryptFile` or `DecryptFile` (PGP mode) got as
far as creating or truncating the target file, the target file is in place
as an ordinary file when the call returns, with or without error: the code
neither deletes nor marks it. After an error its content is, source and
target being different files: empty when the encrypting writer could not be
created or the message could not be opened; after a failed copy in
`EncryptFile`, the header, the body of the plaintext bytes that went
through, and the trailer that the deferred `writeHandle.Close()` still
writes unless it fails too; after a failed copy in `DecryptFile`, the
delivered bytes that were written; after a read error of the message body,
the bytes delivered before it. -/
theorem C17_target_stays_in_place (pgp : OpenPGP) (faults : Faults) (fuel : Nat)
    (flag : Bool) (K content : Bytes) (source target : Path) (fs : FileSystem)
    (hsrc : fs.read source = some content) (hopen : faults.openTarget = none) :
    ((EncryptFile pgp faults (NewEncryptionManager EncryptionModePGP flag K) source target fs).1.read target).isSome = true
    ∧ (∀ r, DecryptFile pgp faults fuel (NewEncryptionManager EncryptionModePGP flag K) source target fs = some r → (r.1.read target).isSome = true)
    ∧ (∀ e, (faults).newWriter = some e →
        (EncryptFile pgp faults (NewEncryptionManager EncryptionModePGP flag K) source target fs).2 = some (.wrapf "failed to create a encrypt writer for" target e)
        ∧ (EncryptFile pgp faults (NewEncryptionManager EncryptionModePGP flag K) source target fs).1.read target = some [])
    ∧ (source ≠ target → (faults).newWriter = none → ∀ n e, (faults).copy = some (n, e) →
        (EncryptFile pgp faults (NewEncryptionManager EncryptionModePGP flag K) source target fs).2 = some (.wrap "failed to encrypt data" e)
        ∧ (EncryptFile pgp faults (NewEncryptionManager EncryptionModePGP flag K) source target fs).1.read target
          = some (pgp.header K ++ (pgp.body K (List.take n content) ++
              (match (faults).closeWriter with
                | some _ => []
                | none => pgp.trailer K (List.take n content)))))
    ∧ (source ≠ target → ∀ e, readMessage pgp content (prompt (NewEncryptionManager EncryptionModePGP flag K)) fuel false = some (.error e) →
        ∃ fs', DecryptFile pgp faults fuel (NewEncryptionManager EncryptionModePGP flag K) source target fs = some (fs', some (.wrapf "failed to decrypt for" source e))
          ∧ fs'.read target = some [])
    ∧ (source ≠ target → ∀ pass, readMessage pgp content (prompt (NewEncryptionManager EncryptionModePGP flag K)) fuel false = some (.ok pass) →
        ∀ n e, (faults).copy = some (n, e) →
        ∃ fs', DecryptFile pgp faults fuel (NewEncryptionManager EncryptionModePGP flag K) source target fs = some (fs', some (.wrap "failed to decrypt data" e))
          ∧ fs'.read target = some (List.take n (pgp.plaintext content pass).1))
    ∧ (source ≠ target → ∀ pass, readMessage pgp content (prompt (NewEncryptionManager EncryptionModePGP flag K)) fuel false = some (.ok pass) →
        (faults).copy = none → ∀ e, (pgp.plaintext content pass).2 = some e →
        ∃ fs', DecryptFile pgp faults fuel (NewEncryptionManager EncryptionModePGP flag K) source target fs = some (fs', some (.wrap "failed to decrypt data" e))
          ∧ fs'.read target = some (pgp.plaintext content pass).1) := by
  have ht : (((fs.log (.opened source)).truncate target).read target).isSome = true :=
    isSome_read_truncate _ _
  have hE := EncryptFile_of_ne_winscp pgp faults
    (NewEncryptionManager EncryptionModePGP flag K) source target fs pgp_ne_winscp
  have hD := DecryptFile_of_ne_winscp pgp faults fuel
    (NewEncryptionManager EncryptionModePGP flag K) source target fs pgp_ne_winscp
  rw [hE, hD]
  refine ⟨?_, ?_, ?_, ?_, ?_, ?_, ?_⟩
  · simp only [encryptFilePGP, hsrc, hopen]
    split
    · exact isSome_read_log _ _ _ (isSome_read_log _ _ _ ht)
    · split <;> split <;>
        first
        | exact isSome_read_log _ _ _ (isSome_read_log _ _ _
            (isSome_read_append _ _ _ _ (isSome_read_append _ _ _ _ ht)))
        | exact isSome_read_log _ _ _ (isSome_read_log _ _ _
            (isSome_read_append _ _ _ _ (isSome_read_append _ _ _ _
              (isSome_read_append _ _ _ _ ht))))
  · intro r hr
    simp only [decryptFilePGP, hsrc, hopen] at hr
    split at hr
    · cases hr
    · injection hr with hr; subst hr
      exact isSome_read_log _ _ _ (isSome_read_log _ _ _ ht)
    · split at hr
      · injection hr with hr; subst hr
        exact isSome_read_log _ _ _ (isSome_read_log _ _ _ (isSome_read_append _ _ _ _ ht))
      · split at hr <;>
        · injection hr with hr; subst hr
          exact isSome_read_log _ _ _ (isSome_read_log _ _ _
            (isSome_read_append _ _ _ _ ht))
  · intro e hnw
    exact encryptFilePGP_newWriter_fails pgp faults _ source target fs content e hsrc hopen hnw
  · intro hne hnw n e hcopy
    exact encryptFilePGP_copy_fails pgp faults _ source target fs content n e hsrc hopen hnw
      hcopy hne
  · intro hne e hmsg
    exact decryptFilePGP_open_fails pgp faults fuel _ source target fs content e hsrc hopen
      hne hmsg
  · intro hne pass hmsg n e hcopy
    exact decryptFilePGP_copy_fails pgp faults fuel _ source target fs content pass n e hsrc
      hopen hne hmsg hcopy
  · intro hne pass hmsg hcopy e hread
    exact decryptFilePGP_read_fails pgp faults fuel _ source target fs content pass e hsrc
      hopen hne hmsg hcopy hread

/-- The copy fails after two plaintext bytes of "hello". -/
theorem C17_target_stays_in_place_witness :
    ((EncryptFile demoOpenPGP demoCopyFault (NewEncryptionManager EncryptionModePGP true (ascii "hunter2")) (ascii "a") (ascii "b") demoFiles).1.read (ascii "b")).isSome = true
    ∧ (∀ r, DecryptFile demoOpenPGP demoCopyFault 2 (NewEncryptionManager EncryptionModePGP true (ascii "hunter2")) (ascii "a") (ascii "b") demoFiles = some r → (r.1.read (ascii "b")).isSome = true)
    ∧ (∀ e, (demoCopyFault).newWriter = some e →
        (EncryptFile demoOpenPGP demoCopyFault (NewEncryptionManager EncryptionModePGP true (ascii "hunter2")) (ascii "a") (ascii "b") demoFiles).2 = some (.wrapf "failed to create a encrypt writer for" (ascii "b") e)
        ∧ (EncryptFile demoOpenPGP demoCopyFault (NewEncryptionManager EncryptionModePGP true (ascii "hunter2")) (ascii "a") (ascii "b") demoFiles).1.read (ascii "b") = some [])
    ∧ ((ascii "a") ≠ (ascii "b") → (demoCopyFault).newWriter = none → ∀ n e, (demoCopyFault).copy = some (n, e) →
        (EncryptFile demoOpenPGP demoCopyFault (NewEncryptionManager EncryptionModePGP true (ascii "hunter2")) (ascii "a") (ascii "b") demoFiles).2 = some (.wrap "failed to encrypt data" e)
        ∧ (EncryptFile demoOpenPGP demoCopyFault (NewEncryptionManager EncryptionModePGP true (ascii "hunter2")) (ascii "a") (ascii "b") demoFiles).1.read (ascii "b")
          = some (demoOpenPGP.header (ascii "hunter2") ++ (demoOpenPGP.body (ascii "hunter2") (List.take n (ascii "hello")) ++
              (match (demoCopyFault).closeWriter with
                | some _ => []
                | none => demoOpenPGP.trailer (ascii "hunter2") (List.take n (ascii "hello"))))))
    ∧ ((ascii "a") ≠ (ascii "b") → ∀ e, readMessage demoOpenPGP (ascii "hello") (prompt (NewEncryptionManager EncryptionModePGP true (ascii "hunter2"))) 2 false = some (.error e) →
        ∃ fs', DecryptFile demoOpenPGP demoCopyFault 2 (NewEncryptionManager EncryptionModePGP true (ascii "hunter2")) (ascii "a") (ascii "b") demoFiles = some (fs', some (.wrapf "failed to decrypt for" (ascii "a") e))
          ∧ fs'.read (ascii "b") = some [])
    ∧ ((ascii "a") ≠ (ascii "b") → ∀ pass, readMessage demoOpenPGP (ascii "hello") (prompt (NewEncryptionManager EncryptionModePGP true (ascii "hunter2"))) 2 false = some (.ok pass) →
        ∀ n e, (demoCopyFault).copy = some (n, e) →
        ∃ fs', DecryptFile demoOpenPGP demoCopyFault 2 (NewEncryptionManager EncryptionModePGP true (ascii "hunter2")) (ascii "a") (ascii "b") demoFiles = some (fs', some (.wrap "failed to decrypt data" e))
          ∧ fs'.read (ascii "b") = some (List.take n (demoOpenPGP.plaintext (ascii "hello") pass).1))
    ∧ ((ascii "a") ≠ (ascii "b") → ∀ pass, readMessage demoOpenPGP (ascii "hello") (prompt (NewEncryptionManager EncryptionModePGP true (ascii "hunter2"))) 2 false = some (.ok pass) →
        (demoCopyFault).copy = none → ∀ e, (demoOpenPGP.plaintext (ascii "hello") pass).2 = some e →
        ∃ fs', DecryptFile demoOpenPGP demoCopyFault 2 (NewEncryptionManager EncryptionModePGP true (ascii "hunter2")) (ascii "a") (ascii "b") demoFiles = some (fs', some (.wrap "failed to decrypt data" e))
          ∧ fs'.read (ascii "b") = some (demoOpenPGP.plaintext (ascii "hello") pass).1) :=
  C17_target_stays_in_place demoOpenPGP demoCopyFault 2 true (ascii "hunter2")
    (ascii "hello") (ascii "a") (ascii "b") demoFiles (by decide) rfl

/-! ## C18 -/

/-- When opening, creating the writer and copying succeed, `encryptFilePGP`
returns nil whatever the deferred `Close` calls return. -/
theorem encryptFilePGP_ignores_close_errors (pgp : OpenPGP) (faults : Faults)
    (m : EncryptionManager) (source target : Path) (fs : FileSystem) (content : Bytes)
    (hsrc : fs.read source = some content) (h1 : faults.openTarget = none)
    (h2 : faults.newWriter = none) (h3 : faults.copy = none) :
    (encryptFilePGP pgp faults m source target fs).2 = none := by
  simp only [encryptFilePGP, hsrc, h1, h2, h3]

/-- C18, the code at the failing input. The source "a" holds "hello", and
`writeHandle.Close()` fails, so that the trailer of the container is not
written. `EncryptFile` returns nil all the same; the target "b" holds header
and body only, which is not the complete container. The same holds when
closing the target handle fails. -/
theorem C18_close_error_is_dropped :
    (EncryptFile demoOpenPGP { noFaults with closeWriter := some (.lib "write error") }
        (NewEncryptionManager EncryptionModePGP true (ascii "hunter2"))
        (ascii "a") (ascii "b") demoFiles).2 = none
    ∧ (EncryptFile demoOpenPGP { noFaults with closeWriter := some (.lib "write error") }
        (NewEncryptionManager EncryptionModePGP true (ascii "hunter2"))
        (ascii "a") (ascii "b") demoFiles).1.read (ascii "b")
      = some (demoOpenPGP.header (ascii "hunter2")
          ++ demoOpenPGP.body (ascii "hunter2") (ascii "hello"))
    ∧ demoOpenPGP.header (ascii "hunter2")
          ++ demoOpenPGP.body (ascii "hunter2") (ascii "hello")
        ≠ demoOpenPGP.message (ascii "hunter2") (ascii "hello")
    ∧ (EncryptFile demoOpenPGP { noFaults with closeTarget := some (.lib "close error") }
        (NewEncryptionManager EncryptionModePGP true (ascii "hunter2"))
        (ascii "a") (ascii "b") demoFiles).2 = none := by
  decide

/-! ## C21 -/

/-- For every sort order other than name and time, the closure of
`getCollectionSortFunction` is the ascending comparison of the names,
whatever `sortReverse` is. -/
theorem getCollectionSortFunction_fallback (entries : List IRODSCollection)
    (sortOrder : ListSortOrder) (sortReverse : Bool) (h1 : sortOrder ≠ .Name)
    (h2 : sortOrder ≠ .Time) (i j : Fin entries.length) :
    getCollectionSortFunction entries sortOrder sortReverse i j
      = stringLess (entries.get i).Name (entries.get j).Name := by
  cases sortOrder <;> cases sortReverse <;> simp_all [getCollectionSortFunction]

/-- For every sort order other than name and time, the closure of
`getTicketSortFunction` is the ascending comparison of the names, whatever
`sortReverse` is. -/
theorem getTicketSortFunction_fallback (tickets : List IRODSTicket)
    (sortOrder : ListSortOrder) (sortReverse : Bool) (h1 : sortOrder ≠ .Name)
    (h2 : sortOrder ≠ .Time) (i j : Fin tickets.length) :
    getTicketSortFunction tickets sortOrder sortReverse i j
      = stringLess (tickets.get i).Name (tickets.get j).Name := by
  cases sortOrder <;> cases sortReverse <;> simp_all [getTicketSortFunction]

/-- The default branch of `getDataObjectSortFunction` with `sortReverse` set
is the descending comparison of the names. -/
theorem getDataObjectSortFunction_default_reverse (entries : List IRODSDataObject)
    (i j : Fin entries.length) :
    getDataObjectSortFunction entries .other true i j
      = .ok (stringGreater (entries.get i).Name (entries.get j).Name) := rfl

theorem stringLess_asymm (a b : Bytes) (h : stringLess a b = true) :
    stringGreater a b = false := by
  unfold stringGreater
  induction a generalizing b with
  | nil =>
    cases b with
    | nil => rfl
    | cons y ys => rfl
  | cons x xs ih =>
    cases b with
    | nil => simp [stringLess] at h
    | cons y ys =>
      simp only [stringLess] at h ⊢
      by_cases hxy : x.val < y.val
      · have hyx : ¬ y.val < x.val := by omega
        simp [hxy, hyx]
      · by_cases hyx : y.val < x.val
        · simp [hxy, hyx] at h
        · simp only [hxy, hyx, if_false, Bool.false_eq_true] at h ⊢
          exact ih ys h

/-- C21, the code at the failing input. Collections (and tickets) named "a"
and "b", sort order size or extension, sortReverse = true: the closure holds
for (0, 1) although "a" > "b" does not hold, and it does not hold for
(1, 0); it is the same closure as with sortReverse = false. On data objects
of the same names the default branch with sortReverse = true holds for
(1, 0) and not for (0, 1). -/
theorem C21_reverse_fallback_is_ascending :
    getCollectionSortFunction demoCollections .Size true ⟨0, by decide⟩ ⟨1, by decide⟩ = true
    ∧ getCollectionSortFunction demoCollections .Size true ⟨1, by decide⟩ ⟨0, by decide⟩
        = false
    ∧ getCollectionSortFunction demoCollections .Ext true ⟨0, by decide⟩ ⟨1, by decide⟩ = true
    ∧ getTicketSortFunction demoTickets .Size true ⟨0, by decide⟩ ⟨1, by decide⟩ = true
    ∧ getTicketSortFunction demoTickets .Size true ⟨1, by decide⟩ ⟨0, by decide⟩ = false
    ∧ getTicketSortFunction demoTickets .Ext true ⟨0, by decide⟩ ⟨1, by decide⟩ = true
    ∧ stringGreater (ascii "a") (ascii "b") = false
    ∧ getCollectionSortFunction demoCollections .Size true
        = getCollectionSortFunction demoCollections .Size false
    ∧ getTicketSortFunction demoTickets .Size true
        = getTicketSortFunction demoTickets .Size false
    ∧ getDataObjectSortFunction demoDataObjects .other true ⟨0, by decide⟩ ⟨1, by decide⟩
        = .ok false
    ∧ getDataObjectSortFunction demoDataObjects .other true ⟨1, by decide⟩ ⟨0, by decide⟩
        = .ok true := by
  refine ⟨by decide, by decide, by decide, by decide, by decide, by decide, by decide,
    rfl, rfl, rfl, rfl⟩

end Gocommands
